import Mathlib

/-!
Shallow embedding of the etcetera library (github.com/rafaeljusto/etcetera),
an etcd client that maps Go structures with `etcd` path tags onto a
hierarchical key/value store.

The repository bundles two revisions of the engine:

* `src/etcetera.go` — the primary revision: `Client.save`, `Client.load`,
  `Client.fillValue` and `Client.Watch` (whose spawn site passes
  `info.version+1`, though its field resolution never finds a match — see
  `watchArgs`).
* a later revision (in the unnamed source parts / doc bundle) with
  `preload`, `fillField`, `Version`, `ErrFieldNotAddr`, and a `Watch`
  that always polls from index 0.

Both are embedded below; definitions carry the source function names.
Machine integers (`int`, `int64`) are modelled as unbounded `Int` with the
64-bit range made explicit where `strconv.ParseInt(_, 10, 64)` checks it.
-/

instance {e a : Type} [DecidableEq e] [DecidableEq a] : DecidableEq (Except e a) := fun x y =>
  match x, y with
  | Except.ok u, Except.ok v =>
    if h : u = v then Decidable.isTrue (by rw [h])
    else Decidable.isFalse (by intro hh; cases hh; exact h rfl)
  | Except.error u, Except.error v =>
    if h : u = v then Decidable.isTrue (by rw [h])
    else Decidable.isFalse (by intro hh; cases hh; exact h rfl)
  | Except.ok _, Except.error _ => Decidable.isFalse (by intro hh; cases hh)
  | Except.error _, Except.ok _ => Decidable.isFalse (by intro hh; cases hh)

/-- The failure kinds of `strconv.ParseInt`: `strconv.ErrSyntax` and
`strconv.ErrRange`. -/
inductive ParseErrKind : Type where
  | syntaxErr : ParseErrKind
  | rangeErr : ParseErrKind
deriving DecidableEq, Repr

/-- Go error values that appear in the library: `*etcd.EtcdError` from the
go-etcd client, `*etcderrors.Error` built by `etcderrors.NewRequestError`
(what the mock store returns), `*strconv.NumError` from integer parsing, and
plain `errors.New` sentinel errors. They are distinct Go types, which matters
because `alreadyExistsError` type-asserts `*etcd.EtcdError`. -/
inductive GoError : Type where
  | etcdErr (code : Int) (message : String) : GoError
  | requestErr (code : Int) (cause : String) : GoError
  | numError (fn : String) (num : String) (kind : ParseErrKind) : GoError
  | simpleErr (message : String) : GoError
deriving DecidableEq, Repr

/-- `ErrNotInitialized` from src/etcetera.go. -/
def ErrNotInitialized : GoError :=
  GoError.simpleErr "etcetera: configuration has fields that are not initialized (map)"

/-- `ErrFieldNotMapped` from src/etcetera.go. -/
def ErrFieldNotMapped : GoError :=
  GoError.simpleErr "etcetera: trying to retrieve information of a field that was not previously loaded"

/-- `ErrFieldNotAddr` from the later revision of the library. -/
def ErrFieldNotAddr : GoError :=
  GoError.simpleErr "etcetera: field must be a pointer or an addressable value"

/-- `etcdErrorCodeNodeExist` (105) from src/etcetera.go. -/
def etcdErrorCodeNodeExist : Int := 105

/-- `etcdErrorCodeKeyNotFound` (100) from src/etcetera.go. -/
def etcdErrorCodeKeyNotFound : Int := 100

/-- `alreadyExistsError` from src/etcetera.go: true exactly for a
`*etcd.EtcdError` whose code is `etcdErrorCodeNodeExist`; the type assertion
fails for every other error type. -/
def alreadyExistsError : GoError → Bool
  | GoError.etcdErr code _ => code == etcdErrorCodeNodeExist
  | _ => false

/-- A remote write issued by `Client.save`: `CreateDir`, `CreateInOrder` or
`Set` on the store interface (src/etcetera.go, `client`). -/
inductive WriteOp : Type where
  | createDir (path : String) : WriteOp
  | createInOrder (path : String) (value : String) : WriteOp
  | set (path : String) (value : String) : WriteOp
deriving DecidableEq, Repr

/-- `etcd.Node`: a remote tree node — key, scalar value, modification index
and child nodes. -/
inductive NodeT : Type where
  | mk (key : String) (value : String) (modifiedIndex : Nat) (nodes : List NodeT) : NodeT
deriving Repr

/-- Key of a node. -/
def NodeT.key : NodeT → String
  | NodeT.mk k _ _ _ => k

/-- Scalar value of a node. -/
def NodeT.value : NodeT → String
  | NodeT.mk _ v _ _ => v

/-- Modification index of a node. -/
def NodeT.modifiedIndex : NodeT → Nat
  | NodeT.mk _ _ m _ => m

/-- Children of a node. -/
def NodeT.nodes : NodeT → List NodeT
  | NodeT.mk _ _ _ ns => ns

mutual
/-- A Go field value of one of the kinds the engine dispatches on
(src/etcetera.go `save`/`fillValue` switch statements): the scalars
`string`, `int`, `int64`, `bool`; `map[string]string` (with `none`
modelling a nil map); slices of each scalar kind; slices of structures
(carrying the element type's zero template, as produced by `reflect.New`,
next to the current elements); and nested structures. -/
inductive Value : Type where
  | vStr (s : String) : Value
  | vInt (n : Int) : Value
  | vInt64 (n : Int) : Value
  | vBool (b : Bool) : Value
  | vMap (entries : Option (List (String × String))) : Value
  | vSliceStr (xs : List String) : Value
  | vSliceInt (xs : List Int) : Value
  | vSliceInt64 (xs : List Int) : Value
  | vSliceBool (xs : List Bool) : Value
  | vSliceStruct (template : List GoField) (elems : List (List GoField)) : Value
  | vStruct (fields : List GoField) : Value

/-- A structure field: its `etcd` tag (empty string when untagged) and its
value. -/
inductive GoField : Type where
  | mk (tag : String) (val : Value) : GoField
end

/-- Tag of a field. -/
def GoField.tag : GoField → String
  | GoField.mk t _ => t

/-- Value of a field. -/
def GoField.val : GoField → Value
  | GoField.mk _ v => v

instance : Inhabited Value := ⟨Value.vStr ""⟩

instance : Inhabited GoField := ⟨GoField.mk "" (Value.vStr "")⟩

/-- Integer content of an `int`/`int64` field value (0 for other kinds);
used to state concrete counterexamples without deciding equality of whole
values. -/
def Value.intVal : Value → Int
  | Value.vInt n => n
  | Value.vInt64 n => n
  | _ => 0

/-- String-slice content of a field value. -/
def Value.sliceStrVal : Value → List String
  | Value.vSliceStr xs => xs
  | _ => []

/-- Fields of a nested structure value. -/
def Value.structFields : Value → List GoField
  | Value.vStruct fs => fs
  | _ => []

/-- Map content of a field value. -/
def Value.mapVal : Value → Option (List (String × String))
  | Value.vMap m => m
  | _ => none

/-- The character for a single decimal digit, as `strconv` emits it. -/
def digitChar : Nat → Char
  | 0 => '0'
  | 1 => '1'
  | 2 => '2'
  | 3 => '3'
  | 4 => '4'
  | 5 => '5'
  | 6 => '6'
  | 7 => '7'
  | 8 => '8'
  | _ => '9'

/-- Decimal digits of `n`, most significant first; `fuel` bounds the
recursion (`n` itself is always enough fuel). -/
def natDigitsAux : Nat → Nat → List Char
  | _, 0 => []
  | n, fuel + 1 => if n = 0 then [] else natDigitsAux (n / 10) fuel ++ [digitChar (n % 10)]

/-- Decimal rendering of a natural number, as `strconv.FormatInt` produces
for non-negative input. -/
def formatNat (n : Nat) : String :=
  if n = 0 then "0" else (natDigitsAux n n).asString

/-- `strconv.FormatInt(v, 10)`: base-10 rendering with a leading minus sign
for negative values. -/
def formatInt (n : Int) : String :=
  if n < 0 then "-" ++ formatNat n.natAbs else formatNat n.toNat

/-- Numeric value of a decimal digit character, `none` for non-digits. -/
def digitVal (c : Char) : Option Nat :=
  if 48 ≤ c.toNat ∧ c.toNat ≤ 57 then some (c.toNat - 48) else none

/-- Accumulating base-10 parse of a digit string, as `strconv.ParseUint`
walks the characters. -/
def parseDigitsAux : Nat → List Char → Option Nat
  | acc, [] => some acc
  | acc, c :: cs =>
    match digitVal c with
    | some d => parseDigitsAux (acc * 10 + d) cs
    | none => none

/-- Base-10 parse of a non-empty all-digit string. -/
def parseDigits (cs : List Char) : Option Nat :=
  match cs with
  | [] => none
  | _ => parseDigitsAux 0 cs

/-- Smallest `int64` value. -/
def int64Lo : Int := -(2 ^ 63)

/-- Largest `int64` value. -/
def int64Hi : Int := 2 ^ 63 - 1

/-- `strconv.ParseInt(s, 10, 64)`: optional sign, non-empty run of decimal
digits (anything else is a syntax error), then the 64-bit range check
(violations are range errors). -/
def goParseInt (s : List Char) : Except ParseErrKind Int :=
  match s with
  | [] => Except.error ParseErrKind.syntaxErr
  | c :: rest =>
    let signed : Bool × List Char :=
      if c = '-' then (true, rest) else if c = '+' then (false, rest) else (false, s)
    match parseDigits signed.2 with
    | none => Except.error ParseErrKind.syntaxErr
    | some m =>
      let v : Int := if signed.1 then -(m : Int) else (m : Int)
      if v < int64Lo ∨ int64Hi < v then Except.error ParseErrKind.rangeErr
      else Except.ok v

/-- The literal text of `strconv` flag encoding, from the `Bool` switch in
`Client.save`. -/
def goBoolStr (b : Bool) : String := if b then "true" else "false"

/-- `(*strconv.NumError).Error()` / plain `Error()` rendering, used to ask
whether an error message mentions a path. `strconv.Quote` is modelled for
strings without escape-needing characters, which covers every input used
below. -/
def goErrorMessage : GoError → String
  | GoError.etcdErr _ message => message
  | GoError.requestErr _ cause => cause
  | GoError.numError fn num kind =>
    "strconv." ++ fn ++ ": parsing " ++ "\"" ++ num ++ "\"" ++ ": " ++
      (match kind with
       | ParseErrKind.syntaxErr => "invalid syntax"
       | ParseErrKind.rangeErr => "value out of range")
  | GoError.simpleErr message => message

/-- Whether `needle` occurs as a contiguous substring of `hay`. -/
def strContains (hay needle : String) : Bool :=
  hay.toList.tails.any (fun t => needle.toList.isPrefixOf t)

/-- Error behaviour of the remote store during a Save, one answer per write
call: `none` means the call succeeds, `some e` that it returns error `e`.
The mock store in the repository tests is driven the same way
(`createDirErrors`, `createInOrderErrors`, `setErrors`). -/
def ErrOracle : Type := WriteOp → Option GoError

/-- The oracle of a store that accepts every write. -/
def okOracle : ErrOracle := fun _ => none

/-- Sequencing of two save steps: Go's `if err := ...; err != nil { return err }`
pattern — the second step runs only when the first one did not abort. -/
def seqRes (r s : List WriteOp × Option GoError) : List WriteOp × Option GoError :=
  match r.2 with
  | some _ => r
  | none => (r.1 ++ s.1, s.2)

/-- One remote write call: the op is attempted, and a resulting error aborts
unless this is a `CreateDir` site (`tolerateExists`) and the error is
`alreadyExistsError` (src/etcetera.go lines 103, 116, 126). -/
def doOp (oracle : ErrOracle) (op : WriteOp) (tolerateExists : Bool) :
    List WriteOp × Option GoError :=
  ([op],
    match oracle op with
    | none => none
    | some e => if tolerateExists && alreadyExistsError e then none else some e)

/-- The `for _, key := range fieldValue.MapKeys()` loop of `Client.save`:
one `Set(path+"/"+key, value)` per entry. -/
def saveMapEntries (oracle : ErrOracle) (path : String) :
    List (String × String) → List WriteOp × Option GoError
  | [] => ([], none)
  | (k, v) :: rest =>
    seqRes (doOp oracle (WriteOp.set (path ++ "/" ++ k) v) false)
      (saveMapEntries oracle path rest)

/-- The scalar-slice loop of `Client.save`: one `CreateInOrder(path, value)`
per element. -/
def saveInOrder (oracle : ErrOracle) (path : String) :
    List String → List WriteOp × Option GoError
  | [] => ([], none)
  | v :: rest =>
    seqRes (doOp oracle (WriteOp.createInOrder path v) false)
      (saveInOrder oracle path rest)

mutual
/-- `Client.save` from src/etcetera.go (lines 80-180): walk the fields in
order; `path := pathSuffix + tag`, skipping a field only when the whole
concatenated path is empty; dispatch on the field kind. The result is the
ordered list of write calls attempted, paired with the error returned (if
any). Note that the scalar-slice branch calls `value.String()` on the
`reflect.Value`, which for non-string kinds yields the literal
`"<int Value>"` / `"<int64 Value>"` / `"<bool Value>"` placeholder rather
than a rendering of the number. -/
def saveFields (oracle : ErrOracle) : List GoField → String → List WriteOp × Option GoError
  | [], _ => ([], none)
  | GoField.mk tag v :: rest, pathSuffix =>
    let path := pathSuffix ++ tag
    if path = "" then saveFields oracle rest pathSuffix
    else seqRes (saveValue oracle v path) (saveFields oracle rest pathSuffix)

/-- The per-field switch of `Client.save`. -/
def saveValue (oracle : ErrOracle) : Value → String → List WriteOp × Option GoError
  | Value.vStruct fs, path => saveFields oracle fs path
  | Value.vMap m, path =>
    seqRes (doOp oracle (WriteOp.createDir path) true)
      (saveMapEntries oracle path (m.getD []))
  | Value.vSliceStr xs, path =>
    seqRes (doOp oracle (WriteOp.createDir path) true) (saveInOrder oracle path xs)
  | Value.vSliceInt xs, path =>
    seqRes (doOp oracle (WriteOp.createDir path) true)
      (saveInOrder oracle path (xs.map fun _ => "<int Value>"))
  | Value.vSliceInt64 xs, path =>
    seqRes (doOp oracle (WriteOp.createDir path) true)
      (saveInOrder oracle path (xs.map fun _ => "<int64 Value>"))
  | Value.vSliceBool xs, path =>
    seqRes (doOp oracle (WriteOp.createDir path) true)
      (saveInOrder oracle path (xs.map fun _ => "<bool Value>"))
  | Value.vSliceStruct _ elems, path =>
    seqRes (doOp oracle (WriteOp.createDir path) true)
      (saveStructElems oracle path elems 0)
  | Value.vStr s, path => doOp oracle (WriteOp.set path s) false
  | Value.vInt n, path => doOp oracle (WriteOp.set path (formatInt n)) false
  | Value.vInt64 n, path => doOp oracle (WriteOp.set path (formatInt n)) false
  | Value.vBool b, path => doOp oracle (WriteOp.set path (goBoolStr b)) false

/-- The slice-of-structures loop of `Client.save`: per index, create the
`path/i` directory (tolerating "already exists") and recurse. -/
def saveStructElems (oracle : ErrOracle) (path : String) :
    List (List GoField) → Nat → List WriteOp × Option GoError
  | [], _ => ([], none)
  | e :: rest, i =>
    let tmpPath := path ++ "/" ++ formatNat i
    seqRes (seqRes (doOp oracle (WriteOp.createDir tmpPath) true) (saveFields oracle e tmpPath))
      (saveStructElems oracle path rest (i + 1))
end

/-- A flat view of the remote store: leaf path to text value, in write
order. -/
def Store : Type := List (String × String)

/-- Leaf lookup. -/
def storeGet : Store → String → Option String
  | [], _ => none
  | (k, v) :: rest, p => if k = p then some v else storeGet rest p

/-- `Set`: create-or-update a leaf, as the repository's mock store does. -/
def storeSet : Store → String → String → Store
  | [], p, v => [(p, v)]
  | (k, w) :: rest, p, v => if k = p then (p, v) :: rest else (k, w) :: storeSet rest p v

/-- Effect of a trace of writes on the flat store. Directory creation does
not affect leaf lookups (matching the mock); `CreateInOrder` is not needed
by the theorems below, which only apply traces produced from scalar fields
(`Set` calls only). -/
def applyOps : List WriteOp → Store → Store
  | [], st => st
  | WriteOp.set p v :: rest, st => applyOps rest (storeSet st p v)
  | WriteOp.createDir _ :: rest, st => applyOps rest st
  | WriteOp.createInOrder _ _ :: rest, st => applyOps rest st

/-- The read interface a Load sees: `Get(path, true, true)` answered with a
node or an error. -/
def Getter : Type := String → Except GoError NodeT

/-- `Get` over the flat store: a present leaf comes back as a node with its
key and value; a missing path is the mock's
`etcderrors.NewRequestError(EcodeKeyNotFound, path)`. -/
def storeGetter (st : Store) : Getter := fun p =>
  match storeGet st p with
  | some v => Except.ok (NodeT.mk p v 1 [])
  | none => Except.error (GoError.requestErr etcdErrorCodeKeyNotFound p)

/-- Go map insert-or-replace (`SetMapIndex`) on the association-list model. -/
def mapInsert : List (String × String) → String → String → List (String × String)
  | [], k, v => [(k, v)]
  | (k', v') :: rest, k, v =>
    if k' = k then (k, v) :: rest else (k', v') :: mapInsert rest k v

/-- The map loop of `Client.fillValue` (src/etcetera.go lines 299-304):
each child node is inserted under its full `node.Key`. -/
def fillMapEntries (m : List (String × String)) : List NodeT → List (String × String)
  | [] => m
  | n :: rest => fillMapEntries (mapInsert m n.key n.value) rest

/-- The `[]string` loop of `fillValue`: append every child value. -/
def appendSliceStr (xs : List String) : List NodeT → List String
  | [] => xs
  | n :: rest => appendSliceStr (xs ++ [n.value]) rest

/-- The `[]int` / `[]int64` loop of `fillValue`: parse and append each child
value, aborting with the `strconv` error on the first bad leaf (elements
appended so far stay appended). -/
def appendSliceInt (xs : List Int) : List NodeT → List Int × Option GoError
  | [] => (xs, none)
  | n :: rest =>
    match goParseInt n.value.toList with
    | Except.error k => (xs, some (GoError.numError "ParseInt" n.value k))
    | Except.ok v => appendSliceInt (xs ++ [v]) rest

/-- The `[]bool` loop of `fillValue`: append `true`/`false` literals and
silently skip anything else. -/
def appendSliceBool (xs : List Bool) : List NodeT → List Bool
  | [] => xs
  | n :: rest =>
    if n.value = "true" then appendSliceBool (xs ++ [true]) rest
    else if n.value = "false" then appendSliceBool (xs ++ [false]) rest
    else appendSliceBool xs rest

mutual
/-- `Client.load` from src/etcetera.go (lines 198-236), restricted to the
field walk (`config` already dereferenced): the fields are processed in
order by `loadField1`; the walk aborts on the first error, leaving the
remaining fields untouched, while fields already processed keep their new
values (Go mutates the structure in place). -/
def loadFields (g : Getter) : List GoField → String → List GoField × Option GoError
  | [], _ => ([], none)
  | f :: rest, pathSuffix =>
    let r1 := loadField1 g f pathSuffix
    match r1.2 with
    | some e => (r1.1 :: rest, some e)
    | none =>
      let r := loadFields g rest pathSuffix
      (r1.1 :: r.1, r.2)
termination_by fs _ => (sizeOf fs, 0)

/-- The body of the field loop of `Client.load`: `path := pathSuffix + tag`,
and the field is skipped only when the whole concatenated path is empty; a
struct field recurses directly into `load`; any other field first runs
`Get(path, true, true)` and then `fillValue` on the response. -/
def loadField1 (g : Getter) : GoField → String → GoField × Option GoError
  | GoField.mk tag v, pathSuffix =>
    let path := pathSuffix ++ tag
    if path = "" then (GoField.mk tag v, none)
    else
      match v with
      | Value.vStruct inner =>
        let ri := loadFields g inner path
        (GoField.mk tag (Value.vStruct ri.1), ri.2)
      | other =>
        match g path with
        | Except.error e => (GoField.mk tag other, some e)
        | Except.ok node =>
          let rv := fillValue g other node
          (GoField.mk tag rv.1, rv.2)
termination_by f _ => (sizeOf f, 0)

/-- `Client.fillValue` from src/etcetera.go (lines 292-378): fill one field
from a response node. A nil map fails with `ErrNotInitialized` before any
entry is written; a populated map receives one entry per child keyed by the
child's full `node.Key`; slices append to whatever the field already holds;
a bool leaf that is neither `"true"` nor `"false"` is silently ignored; a
struct never reaches `fillValue` from `load`, and the switch has no struct
case, so the value is left unchanged. Slice-of-struct elements re-query the
store: each child key is loaded into a fresh zero element via `load`. -/
def fillValue (g : Getter) : Value → NodeT → Value × Option GoError
  | Value.vMap none, _ => (Value.vMap none, some ErrNotInitialized)
  | Value.vMap (some m), node => (Value.vMap (some (fillMapEntries m node.nodes)), none)
  | Value.vSliceStr xs, node => (Value.vSliceStr (appendSliceStr xs node.nodes), none)
  | Value.vSliceInt xs, node =>
    let r := appendSliceInt xs node.nodes
    (Value.vSliceInt r.1, r.2)
  | Value.vSliceInt64 xs, node =>
    let r := appendSliceInt xs node.nodes
    (Value.vSliceInt64 r.1, r.2)
  | Value.vSliceBool xs, node => (Value.vSliceBool (appendSliceBool xs node.nodes), none)
  | Value.vSliceStruct tpl elems, node =>
    let r := loadSliceStructs g tpl node.nodes
    (Value.vSliceStruct tpl (elems ++ r.1), r.2)
  | Value.vStr _, node => (Value.vStr node.value, none)
  | Value.vInt old, node =>
    match goParseInt node.value.toList with
    | Except.error k => (Value.vInt old, some (GoError.numError "ParseInt" node.value k))
    | Except.ok v => (Value.vInt v, none)
  | Value.vInt64 old, node =>
    match goParseInt node.value.toList with
    | Except.error k => (Value.vInt64 old, some (GoError.numError "ParseInt" node.value k))
    | Except.ok v => (Value.vInt64 v, none)
  | Value.vBool b, node =>
    if node.value = "true" then (Value.vBool true, none)
    else if node.value = "false" then (Value.vBool false, none)
    else (Value.vBool b, none)
  | Value.vStruct fs, _ => (Value.vStruct fs, none)
termination_by v _ => (sizeOf v, 0)

/-- The slice-of-structures loop of `fillValue` (lines 308-316): for each
child node, load a fresh zero element (`reflect.New`) from the child's key
and append it; an error aborts before the failing element is appended. -/
def loadSliceStructs (g : Getter) (tpl : List GoField) :
    List NodeT → List (List GoField) × Option GoError
  | [] => ([], none)
  | n :: rest =>
    let re := loadFields g tpl n.key
    match re.2 with
    | some e => ([], some e)
    | none =>
      let r := loadSliceStructs g tpl rest
      (re.1 :: r.1, r.2)
termination_by nodes => (sizeOf tpl, nodes.length + 1)
end

/-- A registry entry's stored field reference (`info.field`) as the primary
revision's `Client.Watch` inspects it: its addressability (`CanAddr`) and
its storage address (`Addr().Pointer()`). Entries recorded by `save`/`load`
come from fields of the dereferenced config pointer, which are addressable,
but the scan below branches on `CanAddr` in general, so the model keeps the
flag. -/
structure RField : Type where
  canAddr : Bool
  addr : Nat
deriving DecidableEq, Repr

/-- The argument of the primary revision's `Client.Watch` as the scan sees
it: `fieldValue := reflect.ValueOf(field)` (src/etcetera.go line 242).
`reflect.ValueOf` never yields an addressable value, so
`fieldValue.CanAddr()` is false by construction; only the underlying
address remains. -/
structure WatchedArg : Type where
  addr : Nat
deriving DecidableEq, Repr

/-- `Client.Watch` from src/etcetera.go (lines 241-290), up to the point the
background long-poll would be spawned: scan the `info` registry (one entry
per path: the stored field reference and its last observed version). The
loop body (lines 248-261): an entry whose `CanAddr` differs from the
argument's — which, the argument being a bare `reflect.ValueOf` result,
means every addressable entry — is skipped; for an addressable entry that
survived that test, equal pointers would make it the match, and the found
field's `etcdClient.Watch(path, info.version+1, true, receiver, stop)`
arguments would be returned; a both-unaddressable pair falls into the empty
`TODO` branch. With no match the call fails with `ErrFieldNotMapped`, and
no goroutine is started (an error carries no watch arguments). Since the
argument is never addressable, the pointer-comparison branch is
unreachable: the scan can never set `found`. -/
def watchArgs : List (String × RField × Nat) → WatchedArg → Except GoError (String × Nat)
  | [], _ => Except.error ErrFieldNotMapped
  | (p, f, ver) :: rest, fv =>
    if f.canAddr != false then watchArgs rest fv
    else if f.canAddr then
      if f.addr == fv.addr then Except.ok (p, ver + 1) else watchArgs rest fv
    else watchArgs rest fv

/-- Field identity in the later revision's `Watch`/`Version`: storage
address, declared type name and value kind, compared together to
disambiguate a struct from its first field. -/
structure FKey : Type where
  addr : Nat
  typeName : String
  kindName : String
deriving DecidableEq, Repr

/-- The equality test of the later revision's registry scan. -/
def fkeyMatch (f k : FKey) : Bool :=
  f.addr == k.addr && f.typeName == k.typeName && f.kindName == k.kindName

/-- The argument passed to the later revision's `Watch`: either a pointer
(whose `Elem()` is addressable) or a plain value, which may or may not be
addressable. -/
inductive FieldArg : Type where
  | fptr (key : FKey) : FieldArg
  | fvalue (canAddr : Bool) (key : FKey) : FieldArg
deriving DecidableEq, Repr

/-- Registry scan of the later revision. -/
def findWatchPath : List (String × FKey × Nat) → FKey → Except GoError String
  | [], _ => Except.error ErrFieldNotMapped
  | (p, f, _) :: rest, k => if fkeyMatch f k then Except.ok p else findWatchPath rest k

/-- The later revision's `Client.Watch` up to spawning the poll: a pointer
argument is dereferenced; a non-pointer that is not addressable fails with
`ErrFieldNotAddr`; otherwise the registry is scanned and a miss fails with
`ErrFieldNotMapped`. Both failures happen synchronously, before any
channel or goroutine exists; a successful resolution yields the watched
path (that revision always polls from index 0). -/
def watchResolve (reg : List (String × FKey × Nat)) : FieldArg → Except GoError String
  | FieldArg.fptr k => findWatchPath reg k
  | FieldArg.fvalue true k => findWatchPath reg k
  | FieldArg.fvalue false _ => Except.error ErrFieldNotAddr

/-- `strings.Split(key, "/")` last element, as the later revision's map fill
uses for entry keys. -/
def lastSegment (s : String) : String := (s.splitOn "/").getLastD ""

/-- The map loop of the later revision's `fillField`: the field is reset to
a fresh map and each child is inserted under the last segment of its key. -/
def fillMapV3 : List (String × String) → List NodeT → List (String × String)
  | m, [] => m
  | m, n :: rest => fillMapV3 (mapInsert m (lastSegment n.key) n.value) rest

mutual
/-- `Client.fillField` of the later revision, over an explicit recursion
budget. The recursion always descends one level of the value's shape, the
fill never changes a value's shape, and the `sizeOf`-based budget supplied
by `fillField` below exceeds the shape depth, so the budget is never
exhausted (the 0 case returns the field unchanged). Differences from
`fillValue` that matter below: maps are reset and keyed by last path
segment (never `ErrNotInitialized`), slices are reset to empty before the
same append loops, structures are filled in-tree by matching child keys, and
struct fields are skipped by empty tag rather than by empty concatenated
path. -/
def fillFieldAux : Nat → Value → NodeT → String → Value × Option GoError
  | 0, v, _, _ => (v, none)
  | fuel + 1, v, node, pathSuffix =>
    match v with
    | Value.vStruct fs =>
      let r := fillStructFieldsAux fuel fs node pathSuffix
      (Value.vStruct r.1, r.2)
    | Value.vMap _ => (Value.vMap (some (fillMapV3 [] node.nodes)), none)
    | Value.vSliceStr _ => (Value.vSliceStr (appendSliceStr [] node.nodes), none)
    | Value.vSliceInt _ =>
      let r := appendSliceInt [] node.nodes
      (Value.vSliceInt r.1, r.2)
    | Value.vSliceInt64 _ =>
      let r := appendSliceInt [] node.nodes
      (Value.vSliceInt64 r.1, r.2)
    | Value.vSliceBool _ => (Value.vSliceBool (appendSliceBool [] node.nodes), none)
    | Value.vSliceStruct tpl _ =>
      let r := fillStructElemsAux fuel tpl node.nodes pathSuffix 0
      (Value.vSliceStruct tpl r.1, r.2)
    | Value.vStr _ => (Value.vStr node.value, none)
    | Value.vInt old =>
      match goParseInt node.value.toList with
      | Except.error k => (Value.vInt old, some (GoError.numError "ParseInt" node.value k))
      | Except.ok w => (Value.vInt w, none)
    | Value.vInt64 old =>
      match goParseInt node.value.toList with
      | Except.error k => (Value.vInt64 old, some (GoError.numError "ParseInt" node.value k))
      | Except.ok w => (Value.vInt64 w, none)
    | Value.vBool b =>
      if node.value = "true" then (Value.vBool true, none)
      else if node.value = "false" then (Value.vBool false, none)
      else (Value.vBool b, none)
termination_by fuel _ _ _ => (fuel, 0, 0)

/-- The struct case of the later revision's `fillField`: per tagged
subfield, find the child whose key equals `pathSuffix + tag` and fill from
it; untagged subfields and subfields without a matching child are left
unchanged; a fill error aborts the walk. -/
def fillStructFieldsAux : Nat → List GoField → NodeT → String → List GoField × Option GoError
  | _, [], _, _ => ([], none)
  | fuel, GoField.mk tag v :: rest, node, pathSuffix =>
    if tag = "" then
      let r := fillStructFieldsAux fuel rest node pathSuffix
      (GoField.mk tag v :: r.1, r.2)
    else
      let path := pathSuffix ++ tag
      match node.nodes.find? (fun c => c.key = path) with
      | none =>
        let r := fillStructFieldsAux fuel rest node pathSuffix
        (GoField.mk tag v :: r.1, r.2)
      | some child =>
        let rv := fillFieldAux fuel v child path
        match rv.2 with
        | some e => (GoField.mk tag rv.1 :: rest, some e)
        | none =>
          let r := fillStructFieldsAux fuel rest node pathSuffix
          (GoField.mk tag rv.1 :: r.1, r.2)
termination_by fuel fs _ _ => (fuel, 1, fs.length)

/-- The slice-of-structures case of the later revision's `fillField`: the
slice is rebuilt from scratch; element `i` starts as the zero template and
is filled from the subitems of child `i`; an error aborts the whole fill. -/
def fillStructElemsAux : Nat → List GoField → List NodeT → String → Nat →
    List (List GoField) × Option GoError
  | _, _, [], _, _ => ([], none)
  | fuel, tpl, item :: rest, pathSuffix, i =>
    let itemPrefix := pathSuffix ++ "/" ++ formatNat i
    let re := fillElemSubitemsAux fuel tpl item.nodes itemPrefix
    match re.2 with
    | some e => ([], some e)
    | none =>
      let r := fillStructElemsAux fuel tpl rest pathSuffix (i + 1)
      (re.1 :: r.1, r.2)
termination_by fuel _ items _ _ => (fuel, 3, items.length)

/-- The `SubitemLoop` of the later revision: each subitem of an element
node fills the first subfield whose full path equals the subitem's key,
threading the progressively filled element through the loop. -/
def fillElemSubitemsAux : Nat → List GoField → List NodeT → String → List GoField × Option GoError
  | _, fields, [], _ => (fields, none)
  | fuel, fields, subitem :: rest, itemPrefix =>
    let rs := fillElemScanAux fuel fields subitem itemPrefix
    match rs.2 with
    | some e => (rs.1, some e)
    | none => fillElemSubitemsAux fuel rs.1 rest itemPrefix
termination_by fuel _ subitems _ => (fuel, 2, subitems.length)

/-- The inner subfield scan of the `SubitemLoop`: first tagged subfield
whose `pathSuffix/i + tag` matches the subitem key is filled; the rest of
the element is untouched. -/
def fillElemScanAux : Nat → List GoField → NodeT → String → List GoField × Option GoError
  | _, [], _, _ => ([], none)
  | fuel, GoField.mk tag v :: rest, subitem, itemPrefix =>
    if tag = "" then
      let r := fillElemScanAux fuel rest subitem itemPrefix
      (GoField.mk tag v :: r.1, r.2)
    else if itemPrefix ++ tag = subitem.key then
      let rv := fillFieldAux fuel v subitem (itemPrefix ++ tag)
      (GoField.mk tag rv.1 :: rest, rv.2)
    else
      let r := fillElemScanAux fuel rest subitem itemPrefix
      (GoField.mk tag v :: r.1, r.2)
termination_by fuel fields _ _ => (fuel, 1, fields.length)
end

mutual
/-- Structural size of a value, used as the recursion budget of
`fillField` (it strictly exceeds the nesting depth of the value's type). -/
def valueSize : Value → Nat
  | Value.vStruct fs => 1 + fieldsSize fs
  | Value.vSliceStruct tpl elems => 1 + fieldsSize tpl + elemsListSize elems
  | _ => 1

/-- Structural size of a field list. -/
def fieldsSize : List GoField → Nat
  | [] => 1
  | GoField.mk _ v :: rest => 1 + valueSize v + fieldsSize rest

/-- Structural size of a list of structure elements. -/
def elemsListSize : List (List GoField) → Nat
  | [] => 1
  | e :: rest => 1 + fieldsSize e + elemsListSize rest
end

/-- `Client.fillField` of the later revision, with the always-sufficient
recursion budget supplied. -/
def fillField (v : Value) (node : NodeT) (pathSuffix : String) : Value × Option GoError :=
  fillFieldAux (valueSize v + 1) v node pathSuffix

mutual
/-- The zero value of the same Go type as the given value (what
`reflect.New` of the type yields): empty string, 0, false, nil map, nil
slices, and zeroed nested structures. -/
def zeroValue : Value → Value
  | Value.vStr _ => Value.vStr ""
  | Value.vInt _ => Value.vInt 0
  | Value.vInt64 _ => Value.vInt64 0
  | Value.vBool _ => Value.vBool false
  | Value.vMap _ => Value.vMap none
  | Value.vSliceStr _ => Value.vSliceStr []
  | Value.vSliceInt _ => Value.vSliceInt []
  | Value.vSliceInt64 _ => Value.vSliceInt64 []
  | Value.vSliceBool _ => Value.vSliceBool []
  | Value.vSliceStruct tpl _ => Value.vSliceStruct tpl []
  | Value.vStruct fs => Value.vStruct (zeroFields fs)

/-- Zero instance of a structure type: same tags, zero values. -/
def zeroFields : List GoField → List GoField
  | [] => []
  | GoField.mk t v :: rest => GoField.mk t (zeroValue v) :: zeroFields rest
end

/-- Whether a value is of a scalar kind (text, int, int64, flag). -/
def isScalar : Value → Bool
  | Value.vStr _ => true
  | Value.vInt _ => true
  | Value.vInt64 _ => true
  | Value.vBool _ => true
  | _ => false

/-- Whether the integer content of a scalar fits in an `int64` (always true
of an actual Go value; made explicit because the embedding uses unbounded
`Int`). -/
def scalarInRange : Value → Bool
  | Value.vInt n => decide (int64Lo ≤ n ∧ n ≤ int64Hi)
  | Value.vInt64 n => decide (int64Lo ≤ n ∧ n ≤ int64Hi)
  | _ => true

/-- The text `Client.save` writes for a scalar field. -/
def encodeScalar : Value → String
  | Value.vStr s => s
  | Value.vInt n => formatInt n
  | Value.vInt64 n => formatInt n
  | Value.vBool b => goBoolStr b
  | _ => ""

/-- The tag paths of the tagged fields of a one-level structure. -/
def taggedPaths (fs : List GoField) : List String :=
  fs.filterMap (fun f => if f.tag = "" then none else some f.tag)

/-- Save into an empty store: the leaf state after `Client.Save` runs with
every write accepted. -/
def saveToEmptyStore (fs : List GoField) : Store :=
  applyOps (saveFields okOracle fs "").1 []

/-- Save into an empty store followed by Load into the zero-valued instance
of the same structure type, over that store. -/
def roundTrip (fs : List GoField) : List GoField × Option GoError :=
  loadFields (storeGetter (saveToEmptyStore fs)) (zeroFields fs) ""

/-- Whether the `load` walk starting from these fields at this prefix is
certain to reach a nil map: a field whose concatenated path is non-empty
and which either is a nil map or is a structure containing one (through
structure nesting only). -/
def hasNilMapB : List GoField → String → Bool
  | [], _ => false
  | GoField.mk t v :: rest, suffix =>
    ((suffix ++ t != "") &&
      (match v with
       | Value.vMap none => true
       | Value.vStruct inner => hasNilMapB inner (suffix ++ t)
       | _ => false)) || hasNilMapB rest suffix

/-- A write call the Save walk survives: either the store accepted it, or
it was a directory creation answered with "node exists" (which
`Client.save` normalizes to success). -/
def tolerableOp (oracle : ErrOracle) (op : WriteOp) : Prop :=
  oracle op = none ∨
    ((∃ p, op = WriteOp.createDir p) ∧ ∃ e, oracle op = some e ∧ alreadyExistsError e = true)

/-- The abort discipline of `Client.save`, as a predicate on a (trace,
error) result: if an error is returned it is the store error of the last
attempted write (so nothing was attempted after it) and is not a tolerated
"directory exists"; if no error is returned, every attempted write either
succeeded or was a tolerated directory creation. -/
def SaveGood (oracle : ErrOracle) (r : List WriteOp × Option GoError) : Prop :=
  (∀ e, r.2 = some e →
    ∃ op, r.1.getLast? = some op ∧ oracle op = some e ∧
      ¬((∃ p, op = WriteOp.createDir p) ∧ alreadyExistsError e = true)) ∧
  (r.2 = none → ∀ op ∈ r.1, tolerableOp oracle op)

/-- `etcderrors.NewRequestError(EcodeRaftInternal, "")`, the error the test
suite injects to make the store reject a write. -/
def raftErr : GoError := GoError.requestErr 300 ""

/-- A store that rejects the `Set` of `/field2` and accepts everything
else. -/
def failSetOracle : ErrOracle := fun op =>
  if op = WriteOp.set "/field2" "10" then some raftErr else none

/-- A store whose `CreateDir "/field"` answers "node exists"
(`*etcd.EtcdError` with code 105) and that accepts everything else. -/
def nodeExistOracle : ErrOracle := fun op =>
  if op = WriteOp.createDir "/field" then some (GoError.etcdErr 105 "") else none

theorem digitVal_digitChar {d : Nat} (h : d < 10) : digitVal (digitChar d) = some d := by
  interval_cases d <;> decide

theorem digitChar_ne_minus {d : Nat} (h : d < 10) : digitChar d ≠ '-' := by
  interval_cases d <;> decide

theorem digitChar_ne_plus {d : Nat} (h : d < 10) : digitChar d ≠ '+' := by
  interval_cases d <;> decide

theorem parseDigitsAux_append (acc : Nat) (l1 l2 : List Char) :
    parseDigitsAux acc (l1 ++ l2) =
      match parseDigitsAux acc l1 with
      | some a => parseDigitsAux a l2
      | none => none := by
  induction l1 generalizing acc with
  | nil => simp [parseDigitsAux]
  | cons c cs ih =>
    simp only [List.cons_append, parseDigitsAux]
    cases digitVal c with
    | some d => exact ih (acc * 10 + d)
    | none => rfl

/-- Every character produced by `natDigitsAux` is a decimal digit. -/
theorem natDigitsAux_digits (fuel n : Nat) :
    ∀ c ∈ natDigitsAux n fuel, ∃ d, d < 10 ∧ c = digitChar d := by
  induction fuel generalizing n with
  | zero => simp [natDigitsAux]
  | succ fuel ih =>
    intro c hc
    simp only [natDigitsAux] at hc
    by_cases h0 : n = 0
    · simp [h0] at hc
    · simp only [h0, if_false, List.mem_append, List.mem_singleton] at hc
      rcases hc with hc | hc
      · exact ih (n / 10) c hc
      · exact ⟨n % 10, Nat.mod_lt _ (by norm_num), hc⟩

theorem parseDigitsAux_natDigitsAux (fuel : Nat) :
    ∀ n acc, n ≤ fuel →
      parseDigitsAux acc (natDigitsAux n fuel) =
        some (acc * 10 ^ (natDigitsAux n fuel).length + n) := by
  induction fuel with
  | zero =>
    intro n acc hn
    interval_cases n
    simp [natDigitsAux, parseDigitsAux]
  | succ fuel ih =>
    intro n acc hn
    by_cases h0 : n = 0
    · simp [natDigitsAux, h0, parseDigitsAux]
    · have hrec : n / 10 ≤ fuel := by
        have : n / 10 < n := Nat.div_lt_self (Nat.pos_of_ne_zero h0) (by norm_num)
        omega
      simp only [natDigitsAux, h0, if_false]
      rw [parseDigitsAux_append, ih (n / 10) acc hrec]
      have hlt : n % 10 < 10 := Nat.mod_lt n (by norm_num)
      simp only [parseDigitsAux, digitVal_digitChar hlt]
      rw [List.length_append]
      simp only [List.length_cons, List.length_nil]
      congr 1
      have h1 : (acc * 10 ^ (natDigitsAux (n / 10) fuel).length + n / 10) * 10 + n % 10
          = acc * (10 ^ (natDigitsAux (n / 10) fuel).length * 10) + (10 * (n / 10) + n % 10) := by
        ring
      rw [h1, Nat.div_add_mod, ← pow_succ]

theorem toList_append (s t : String) : (s ++ t).toList = s.toList ++ t.toList := by
  cases s
  cases t
  rfl

theorem toList_asString (l : List Char) : (List.asString l).toList = l := rfl

theorem natDigitsAux_ne_nil {n fuel : Nat} (hn : n ≠ 0) (hf : fuel ≠ 0) :
    natDigitsAux n fuel ≠ [] := by
  cases fuel with
  | zero => exact absurd rfl hf
  | succ fuel => simp [natDigitsAux, hn]

theorem parseDigits_natDigitsAux {n : Nat} (hn : n ≠ 0) :
    parseDigits (natDigitsAux n n) = some n := by
  have hne := @natDigitsAux_ne_nil n n hn (by omega)
  have h := parseDigitsAux_natDigitsAux n n 0 (le_refl n)
  unfold parseDigits
  match hd : natDigitsAux n n with
  | [] => exact absurd hd hne
  | c :: cs =>
    rw [hd] at h
    simpa using h

/-- The first character of `natDigitsAux` output is a decimal digit, hence
never a sign character. -/
theorem natDigitsAux_head_digit {n fuel : Nat} {c : Char} {cs : List Char}
    (h : natDigitsAux n fuel = c :: cs) : c ≠ '-' ∧ c ≠ '+' := by
  have hmem : c ∈ natDigitsAux n fuel := by rw [h]; exact List.mem_cons_self c cs
  obtain ⟨d, hd, rfl⟩ := natDigitsAux_digits fuel n c hmem
  exact ⟨digitChar_ne_minus hd, digitChar_ne_plus hd⟩

theorem int64Lo_eq : int64Lo = -9223372036854775808 := by norm_num [int64Lo]

theorem int64Hi_eq : int64Hi = 9223372036854775807 := by norm_num [int64Hi]

theorem goParseInt_cons_minus (l : List Char) :
    goParseInt ('-' :: l) =
      match parseDigits l with
      | none => Except.error ParseErrKind.syntaxErr
      | some m =>
        if -(m : Int) < int64Lo ∨ int64Hi < -(m : Int) then Except.error ParseErrKind.rangeErr
        else Except.ok (-(m : Int)) := rfl

theorem goParseInt_cons_digit {c : Char} (l : List Char) (hm : c ≠ '-') (hp : c ≠ '+') :
    goParseInt (c :: l) =
      match parseDigits (c :: l) with
      | none => Except.error ParseErrKind.syntaxErr
      | some m =>
        if (m : Int) < int64Lo ∨ int64Hi < (m : Int) then Except.error ParseErrKind.rangeErr
        else Except.ok ((m : Int)) := by
  simp [goParseInt, hm, hp]

/-- Parsing the decimal rendering of a natural number recovers it, provided
it fits in an `int64`. -/
theorem goParseInt_formatNat {n : Nat} (hn : (n : Int) ≤ int64Hi) :
    goParseInt (formatNat n).toList = Except.ok (n : Int) := by
  by_cases h0 : n = 0
  · subst h0
    rfl
  · unfold formatNat
    rw [if_neg h0, toList_asString]
    have hne := @natDigitsAux_ne_nil n n h0 (by omega)
    match hd : natDigitsAux n n with
    | [] => exact absurd hd hne
    | c :: cs =>
      obtain ⟨hcm, hcp⟩ := natDigitsAux_head_digit hd
      have hparse : parseDigits (c :: cs) = some n := by
        rw [← hd]; exact parseDigits_natDigitsAux h0
      rw [goParseInt_cons_digit cs hcm hcp, hparse]
      have hrange : ¬((n : Int) < int64Lo ∨ int64Hi < (n : Int)) := by
        rw [int64Lo_eq]
        rw [int64Hi_eq] at hn ⊢
        push_neg
        omega
      simp only [hrange, if_false]

/-- Round trip for `strconv.FormatInt` / `strconv.ParseInt(_, 10, 64)` on
values in the 64-bit signed range (every Go `int`/`int64` value). -/
theorem goParseInt_formatInt {v : Int} (hlo : int64Lo ≤ v) (hhi : v ≤ int64Hi) :
    goParseInt (formatInt v).toList = Except.ok v := by
  rw [int64Lo_eq] at hlo
  rw [int64Hi_eq] at hhi
  by_cases hneg : v < 0
  · unfold formatInt
    rw [if_pos hneg, toList_append]
    have habs0 : v.natAbs ≠ 0 := by
      intro h
      omega
    show goParseInt ('-' :: (formatNat v.natAbs).toList) = Except.ok v
    unfold formatNat
    rw [if_neg habs0, toList_asString]
    rw [goParseInt_cons_minus, parseDigits_natDigitsAux habs0]
    have hv : -((v.natAbs : Nat) : Int) = v := by omega
    have hrange : ¬(-((v.natAbs : Nat) : Int) < int64Lo ∨ int64Hi < -((v.natAbs : Nat) : Int)) := by
      rw [int64Lo_eq, int64Hi_eq]
      push_neg
      omega
    simp only [hrange, if_false, hv]
    have hr2 : ¬(v < int64Lo ∨ int64Hi < v) := by
      rw [int64Lo_eq, int64Hi_eq]
      push_neg
      omega
    rw [if_neg hr2]
  · push_neg at hneg
    unfold formatInt
    rw [if_neg (by omega)]
    have hv : ((v.toNat : Nat) : Int) = v := by omega
    have h := @goParseInt_formatNat v.toNat (by rw [int64Hi_eq]; omega)
    rw [hv] at h
    exact h

theorem string_nil_append (s : String) : "" ++ s = s := rfl

/-- C6: during Load (or a watch re-fill), a flag (bool) leaf whose text is
neither the literal `"true"` nor `"false"` produces no error and leaves the
target field at its previous value (src/etcetera.go lines 364-369). -/
theorem fillValue_flag_bad_literal_ignored (g : Getter) (b : Bool) (node : NodeT)
    (h1 : node.value ≠ "true") (h2 : node.value ≠ "false") :
    fillValue g (Value.vBool b) node = (Value.vBool b, none) := by
  simp [fillValue, h1, h2]

/-- Witness for C6: a leaf holding `"yes"` leaves a true flag untouched and
returns no error. -/
theorem fillValue_flag_bad_literal_ignored_witness :
    fillValue (storeGetter []) (Value.vBool true) (NodeT.mk "/field4" "yes" 7 []) =
      (Value.vBool true, none) :=
  fillValue_flag_bad_literal_ignored (storeGetter []) true (NodeT.mk "/field4" "yes" 7 [])
    (by decide) (by decide)

/-- C3 (code bug): the primary revision's `Client.Watch` never starts its
background long-poll at all. The spawn site (src/etcetera.go line 270)
passes exactly the claimed `info.version+1` wait index, and the function's
own doc comment promises the field is tracked — but the resolution loop
compares `info.field.CanAddr()` with `fieldValue.CanAddr()`, and
`fieldValue` comes straight from `reflect.ValueOf`, which never yields an
addressable value, while every registry entry stored by `save`/`load` is a
field of the dereferenced config pointer and IS addressable. So every
entry is skipped at the `CanAddr` test (the both-unaddressable case is the
empty `// TODO?!?` branch), `found` stays false, and Watch returns
`ErrFieldNotMapped` for every registry and every argument — including the
failing input below, where the registered entry for `/field1` holds the
very address being watched at version 3, so the claim would demand a poll
from index 4. -/
theorem watch_never_matches :
    (∀ (reg : List (String × RField × Nat)) (fv : WatchedArg),
      watchArgs reg fv = Except.error ErrFieldNotMapped) ∧
    watchArgs [("/field1", RField.mk true 5, 3)] (WatchedArg.mk 5) =
      Except.error ErrFieldNotMapped := by
  have hall : ∀ (reg : List (String × RField × Nat)) (fv : WatchedArg),
      watchArgs reg fv = Except.error ErrFieldNotMapped := by
    intro reg fv
    induction reg with
    | nil => rfl
    | cons e rest ih =>
      obtain ⟨p, f, ver⟩ := e
      cases hf : f.canAddr with
      | true => simp [watchArgs, hf, ih]
      | false => simp [watchArgs, hf, ih]
  exact ⟨hall, hall _ _⟩

theorem findWatchPath_nomatch :
    ∀ (reg : List (String × FKey × Nat)) (k : FKey),
      (∀ e ∈ reg, fkeyMatch e.2.1 k = false) →
      findWatchPath reg k = Except.error ErrFieldNotMapped := by
  intro reg k
  induction reg with
  | nil => intro _; rfl
  | cons e rest ih =>
    intro h
    obtain ⟨q, f, w⟩ := e
    have he : fkeyMatch f k = false := h (q, f, w) (List.mem_cons_self _ _)
    simp only [findWatchPath, he, Bool.false_eq_true, if_false]
    exact ih (fun x hx => h x (List.mem_cons_of_mem _ hx))

/-- C8: the later revision's `Watch` fails with `ErrFieldNotMapped` for a
field reference (pointer or addressable value) matching no registry entry,
and with `ErrFieldNotAddr` for a non-addressable non-pointer value. Both
failures are returned synchronously by the resolution step; an error result
carries no watch path, so no background poll can be started from it. -/
theorem watchResolve_failures (reg : List (String × FKey × Nat)) (k k2 : FKey)
    (hnomatch : ∀ e ∈ reg, fkeyMatch e.2.1 k = false) :
    watchResolve reg (FieldArg.fptr k) = Except.error ErrFieldNotMapped ∧
    watchResolve reg (FieldArg.fvalue true k) = Except.error ErrFieldNotMapped ∧
    watchResolve reg (FieldArg.fvalue false k2) = Except.error ErrFieldNotAddr :=
  ⟨findWatchPath_nomatch reg k hnomatch, findWatchPath_nomatch reg k hnomatch, rfl⟩

/-- Witness for C8: a one-entry registry rejects a foreign field and a
non-addressable value. -/
theorem watchResolve_failures_witness :
    watchResolve [("/field1", FKey.mk 5 "string" "string", 2)]
        (FieldArg.fptr (FKey.mk 9 "int" "int")) = Except.error ErrFieldNotMapped ∧
    watchResolve [("/field1", FKey.mk 5 "string" "string", 2)]
        (FieldArg.fvalue true (FKey.mk 9 "int" "int")) = Except.error ErrFieldNotMapped ∧
    watchResolve [("/field1", FKey.mk 5 "string" "string", 2)]
        (FieldArg.fvalue false (FKey.mk 9 "int" "int")) = Except.error ErrFieldNotAddr :=
  watchResolve_failures [("/field1", FKey.mk 5 "string" "string", 2)]
    (FKey.mk 9 "int" "int") (FKey.mk 9 "int" "int") (by decide)

/-- C9 (amended): the two revisions of the read-direction fill are not
equivalent in general; on slice fields of scalar element kind they agree
exactly when the primary revision's target slice starts empty —
`fillField` always resets the slice before running the same append loops,
regardless of the target's initial value, while `fillValue` appends to the
existing elements. (On maps they differ further: `fillValue` requires an
initialized map and keys entries by the child's full key, `fillField`
reallocates unconditionally and keys by last path segment.) -/
theorem fillField_fillValue_scalar_slice_agree (g : Getter) (node : NodeT) (p : String) :
    (∀ xs : List String,
      fillField (Value.vSliceStr xs) node p = fillValue g (Value.vSliceStr []) node) ∧
    (∀ xs : List Int,
      fillField (Value.vSliceInt xs) node p = fillValue g (Value.vSliceInt []) node) ∧
    (∀ xs : List Int,
      fillField (Value.vSliceInt64 xs) node p = fillValue g (Value.vSliceInt64 []) node) ∧
    (∀ xs : List Bool,
      fillField (Value.vSliceBool xs) node p = fillValue g (Value.vSliceBool []) node) := by
  refine ⟨fun xs => ?_, fun xs => ?_, fun xs => ?_, fun xs => ?_⟩ <;>
    simp [fillField, valueSize, fillFieldAux, fillValue]

/-- Counterexample to C9 as stated: over the same response tree, a
string-slice field holding `["x"]` becomes `["x", "y"]` under the primary
revision's `fillValue` (append) but `["y"]` under the later revision's
`fillField` (reset), so the two fills are not behaviorally equivalent for
every initial value of a slice target. -/
theorem fillValue_fillField_counterexample :
    (fillValue (storeGetter []) (Value.vSliceStr ["x"])
        (NodeT.mk "/f" "" 1 [NodeT.mk "/f/0" "y" 1 []])).1.sliceStrVal = ["x", "y"] ∧
    (fillField (Value.vSliceStr ["x"]) (NodeT.mk "/f" "" 1 [NodeT.mk "/f/0" "y" 1 []])
        "/f").1.sliceStrVal = ["y"] ∧
    (["x", "y"] : List String) ≠ ["y"] := by
  refine ⟨?_, ?_, by decide⟩
  · simp [fillValue, appendSliceStr, NodeT.nodes, NodeT.value, Value.sliceStrVal]
  · simp only [fillField, valueSize]
    simp [fillFieldAux, appendSliceStr, NodeT.nodes, NodeT.value, Value.sliceStrVal]

theorem fillValue_nilmap (g : Getter) (node : NodeT) :
    fillValue g (Value.vMap none) node = (Value.vMap none, some ErrNotInitialized) := by
  simp [fillValue]

theorem loadField1_nilmap (g : Getter) (t : String) (suffix : String) :
    (loadField1 g (GoField.mk t (Value.vMap none)) suffix).1 = GoField.mk t (Value.vMap none) ∧
    (suffix ++ t ≠ "" → (loadField1 g (GoField.mk t (Value.vMap none)) suffix).2 ≠ none) := by
  by_cases hp : suffix ++ t = ""
  · constructor
    · simp [loadField1, hp]
    · intro h
      exact absurd hp h
  · cases hg : g (suffix ++ t) with
    | error e =>
      constructor
      · simp [loadField1, hp, hg]
      · intro _
        simp [loadField1, hp, hg]
    | ok node =>
      constructor
      · simp [loadField1, hp, hg, fillValue_nilmap]
      · intro _
        simp [loadField1, hp, hg, fillValue_nilmap]

theorem fieldsSize_pos (fs : List GoField) : 1 ≤ fieldsSize fs := by
  cases fs with
  | nil => simp [fieldsSize]
  | cons f rest =>
    obtain ⟨t, v⟩ := f
    simp [fieldsSize]
    omega

theorem loadFields_cons_err (g : Getter) (f : GoField) (rest : List GoField)
    (suffix : String) (e : GoError)
    (h : (loadField1 g f suffix).2 = some e) :
    loadFields g (f :: rest) suffix = ((loadField1 g f suffix).1 :: rest, some e) := by
  simp only [loadFields, h]

theorem loadFields_cons_ok (g : Getter) (f : GoField) (rest : List GoField)
    (suffix : String)
    (h : (loadField1 g f suffix).2 = none) :
    loadFields g (f :: rest) suffix =
      ((loadField1 g f suffix).1 :: (loadFields g rest suffix).1,
        (loadFields g rest suffix).2) := by
  simp only [loadFields, h]

theorem loadFields_nilmap_fails (g : Getter) :
    ∀ (N : Nat) (fs : List GoField) (suffix : String), fieldsSize fs ≤ N →
      hasNilMapB fs suffix = true → (loadFields g fs suffix).2 ≠ none := by
  intro N
  induction N using Nat.strong_induction_on with
  | _ N ih =>
    intro fs suffix hsz hnil
    match fs with
    | [] => simp [hasNilMapB] at hnil
    | GoField.mk t v :: rest =>
      have hvp : 1 ≤ valueSize v := by
        cases v <;> simp [valueSize] <;> omega
      have hcons : fieldsSize (GoField.mk t v :: rest) = 1 + valueSize v + fieldsSize rest := by
        simp [fieldsSize]
      have hrestpos := fieldsSize_pos rest
      have step_rest : hasNilMapB rest suffix = true → (loadFields g (GoField.mk t v :: rest) suffix).2 ≠ none := by
        intro hrest
        have hN : N - 1 < N := by omega
        have hfail := ih (N - 1) hN rest suffix (by omega) hrest
        cases h1 : (loadField1 g (GoField.mk t v) suffix).2 with
        | some e => simp [loadFields_cons_err g _ rest suffix e h1]
        | none =>
          rw [loadFields_cons_ok g _ rest suffix h1]
          simpa using hfail
      cases v with
      | vMap m =>
        cases m with
        | some mm =>
          simp only [hasNilMapB, Bool.or_eq_true, Bool.and_eq_true] at hnil
          rcases hnil with ⟨_, hfalse⟩ | hrest
          · simp at hfalse
          · exact step_rest hrest
        | none =>
          simp only [hasNilMapB, Bool.or_eq_true, Bool.and_eq_true] at hnil
          rcases hnil with ⟨hpath, _⟩ | hrest
          · have hpath' : suffix ++ t ≠ "" := by simpa using hpath
            have h2 := (loadField1_nilmap g t suffix).2 hpath'
            cases h1 : (loadField1 g (GoField.mk t (Value.vMap none)) suffix).2 with
            | none => exact absurd h1 h2
            | some e => simp [loadFields_cons_err g _ rest suffix e h1]
          · exact step_rest hrest
      | vStruct inner =>
        simp only [hasNilMapB, Bool.or_eq_true, Bool.and_eq_true] at hnil
        rcases hnil with ⟨hpath, hv⟩ | hrest
        · have hpath' : suffix ++ t ≠ "" := by simpa using hpath
          have hstx : valueSize (Value.vStruct inner) = 1 + fieldsSize inner := by
            simp [valueSize]
          have hN : N - 1 < N := by omega
          have hfail := ih (N - 1) hN inner (suffix ++ t) (by omega) hv
          cases hri : (loadFields g inner (suffix ++ t)).2 with
          | none => exact absurd hri hfail
          | some e =>
            have h1 : (loadField1 g (GoField.mk t (Value.vStruct inner)) suffix).2 = some e := by
              simp only [loadField1]
              rw [if_neg hpath']
              simpa using hri
            simp [loadFields_cons_err g _ rest suffix e h1]
        · exact step_rest hrest
      | vStr s =>
        simp only [hasNilMapB, Bool.or_eq_true, Bool.and_eq_true] at hnil
        rcases hnil with ⟨_, hfalse⟩ | hrest
        · simp at hfalse
        · exact step_rest hrest
      | vInt n =>
        simp only [hasNilMapB, Bool.or_eq_true, Bool.and_eq_true] at hnil
        rcases hnil with ⟨_, hfalse⟩ | hrest
        · simp at hfalse
        · exact step_rest hrest
      | vInt64 n =>
        simp only [hasNilMapB, Bool.or_eq_true, Bool.and_eq_true] at hnil
        rcases hnil with ⟨_, hfalse⟩ | hrest
        · simp at hfalse
        · exact step_rest hrest
      | vBool b =>
        simp only [hasNilMapB, Bool.or_eq_true, Bool.and_eq_true] at hnil
        rcases hnil with ⟨_, hfalse⟩ | hrest
        · simp at hfalse
        · exact step_rest hrest
      | vSliceStr xs =>
        simp only [hasNilMapB, Bool.or_eq_true, Bool.and_eq_true] at hnil
        rcases hnil with ⟨_, hfalse⟩ | hrest
        · simp at hfalse
        · exact step_rest hrest
      | vSliceInt xs =>
        simp only [hasNilMapB, Bool.or_eq_true, Bool.and_eq_true] at hnil
        rcases hnil with ⟨_, hfalse⟩ | hrest
        · simp at hfalse
        · exact step_rest hrest
      | vSliceInt64 xs =>
        simp only [hasNilMapB, Bool.or_eq_true, Bool.and_eq_true] at hnil
        rcases hnil with ⟨_, hfalse⟩ | hrest
        · simp at hfalse
        · exact step_rest hrest
      | vSliceBool xs =>
        simp only [hasNilMapB, Bool.or_eq_true, Bool.and_eq_true] at hnil
        rcases hnil with ⟨_, hfalse⟩ | hrest
        · simp at hfalse
        · exact step_rest hrest
      | vSliceStruct tpl elems =>
        simp only [hasNilMapB, Bool.or_eq_true, Bool.and_eq_true] at hnil
        rcases hnil with ⟨_, hfalse⟩ | hrest
        · simp at hfalse
        · exact step_rest hrest

theorem loadFields_keeps_nilmap (g : Getter) :
    ∀ (fs : List GoField) (suffix : String) (i : Nat) (t : String),
      fs.get? i = some (GoField.mk t (Value.vMap none)) →
      (loadFields g fs suffix).1.get? i = some (GoField.mk t (Value.vMap none)) := by
  intro fs
  induction fs with
  | nil =>
    intro suffix i t h
    simp at h
  | cons f rest ih =>
    intro suffix i t hi
    cases i with
    | zero =>
      rw [List.get?_cons_zero] at hi
      obtain rfl : f = GoField.mk t (Value.vMap none) := by
        injection hi
      have hhead := (loadField1_nilmap g t suffix).1
      cases h1 : (loadField1 g (GoField.mk t (Value.vMap none)) suffix).2 with
      | some e =>
        rw [loadFields_cons_err g _ rest suffix e h1]
        simp [hhead]
      | none =>
        rw [loadFields_cons_ok g _ rest suffix h1]
        simp [hhead]
    | succ i =>
      rw [List.get?_cons_succ] at hi
      cases h1 : (loadField1 g f suffix).2 with
      | some e =>
        rw [loadFields_cons_err g _ rest suffix e h1]
        simpa using hi
      | none =>
        rw [loadFields_cons_ok g _ rest suffix h1]
        simpa using ih suffix i t hi

/-- C2: loading into a nil map. The first conjunct is the behaviour of the
fill step itself (src/etcetera.go lines 292-304): for every response,
`fillValue` on a nil map fails with `ErrNotInitialized`, allocates nothing
and writes no entry — the field comes back exactly as it went in. The
second conjunct lifts this to the walk: a Load whose target structure
reaches a nil map (through struct nesting) never succeeds. The third: no
Load ever changes a nil map field, at any position, under any store
response — the engine never allocates the map on the caller's behalf and
performs no partial mutation. -/
theorem load_nilmap_not_initialized (g : Getter) (fs : List GoField) (suffix : String) :
    (∀ node : NodeT,
      fillValue g (Value.vMap none) node = (Value.vMap none, some ErrNotInitialized)) ∧
    (hasNilMapB fs suffix = true → (loadFields g fs suffix).2 ≠ none) ∧
    (∀ i t, fs.get? i = some (GoField.mk t (Value.vMap none)) →
      (loadFields g fs suffix).1.get? i = some (GoField.mk t (Value.vMap none))) :=
  ⟨fillValue_nilmap g,
   loadFields_nilmap_fails g (fieldsSize fs) fs suffix (le_refl _),
   fun i t h => loadFields_keeps_nilmap g fs suffix i t h⟩

/-- Witness for C2: a one-field structure with a nil map, over a store that
has the path, fails to load and keeps the field nil. -/
theorem load_nilmap_not_initialized_witness :
    fillValue (storeGetter [("/m", "")]) (Value.vMap none) (NodeT.mk "/m" "" 1 []) =
      (Value.vMap none, some ErrNotInitialized) ∧
    (loadFields (storeGetter [("/m", "")]) [GoField.mk "/m" (Value.vMap none)] "").2 ≠ none ∧
    (loadFields (storeGetter [("/m", "")]) [GoField.mk "/m" (Value.vMap none)] "").1.get? 0 =
      some (GoField.mk "/m" (Value.vMap none)) :=
  ⟨(load_nilmap_not_initialized (storeGetter [("/m", "")])
      [GoField.mk "/m" (Value.vMap none)] "").1 (NodeT.mk "/m" "" 1 []),
   (load_nilmap_not_initialized (storeGetter [("/m", "")])
      [GoField.mk "/m" (Value.vMap none)] "").2.1 (by simp [hasNilMapB]),
   (load_nilmap_not_initialized (storeGetter [("/m", "")])
      [GoField.mk "/m" (Value.vMap none)] "").2.2 0 "/m" rfl⟩

theorem loadFields_append (g : Getter) :
    ∀ (as bs : List GoField) (suffix : String),
      loadFields g (as ++ bs) suffix =
        match (loadFields g as suffix).2 with
        | some e => ((loadFields g as suffix).1 ++ bs, some e)
        | none =>
          ((loadFields g as suffix).1 ++ (loadFields g bs suffix).1,
            (loadFields g bs suffix).2) := by
  intro as
  induction as with
  | nil =>
    intro bs suffix
    simp [loadFields]
  | cons f rest ih =>
    intro bs suffix
    cases h1 : (loadField1 g f suffix).2 with
    | some e =>
      rw [List.cons_append, loadFields_cons_err g f (rest ++ bs) suffix e h1,
          loadFields_cons_err g f rest suffix e h1]
      simp
    | none =>
      rw [List.cons_append, loadFields_cons_ok g f (rest ++ bs) suffix h1,
          loadFields_cons_ok g f rest suffix h1, ih bs suffix]
      cases h2 : (loadFields g rest suffix).2 with
      | some e => simp [h2]
      | none => simp [h2]

theorem loadFields_append_ok (g : Getter) (as bs : List GoField) (suffix : String)
    (h : (loadFields g as suffix).2 = none) :
    loadFields g (as ++ bs) suffix =
      ((loadFields g as suffix).1 ++ (loadFields g bs suffix).1,
        (loadFields g bs suffix).2) := by
  rw [loadFields_append g as bs suffix, h]

/-- C5 (amended): a leaf whose text is not a valid base-10 integer, mapped
to an integer field, makes Load fail with the underlying `strconv.ParseInt`
decoding error — which names the offending text, not the offending path —
as soon as the walk reaches that field, and every field after that point in
the walk is left exactly as it was (fail-fast, not best-effort); the
failing field itself also keeps its previous value. `pre` are the fields
walked before the failing one (assumed to load cleanly, so the walk
actually reaches the integer field). -/
theorem load_int_parse_failfast (g : Getter) (pre post : List GoField) (t : String)
    (n : Int) (node : NodeT) (k : ParseErrKind)
    (hpre : (loadFields g pre "").2 = none)
    (ht : t ≠ "")
    (hget : g t = Except.ok node)
    (hparse : goParseInt node.value.toList = Except.error k) :
    loadFields g (pre ++ GoField.mk t (Value.vInt n) :: post) "" =
      ((loadFields g pre "").1 ++ GoField.mk t (Value.vInt n) :: post,
        some (GoError.numError "ParseInt" node.value k)) := by
  have hparse2 : goParseInt node.value.data = Except.error k := hparse
  have hf : loadField1 g (GoField.mk t (Value.vInt n)) "" =
      (GoField.mk t (Value.vInt n), some (GoError.numError "ParseInt" node.value k)) := by
    simp [loadField1, string_nil_append, ht, hget, fillValue, hparse2]
  rw [loadFields_append_ok g pre _ "" hpre,
      loadFields_cons_err g _ post "" _ (by rw [hf])]
  simp [hf]

/-- Counterexample to C5 as stated: at the store holding `"NaN"` under
`/field2`, Load fails with the raw `strconv.NumError`; its rendered message
names the offending text but contains no occurrence of the path `/field2`,
so the error does not "name the offending path". -/
theorem load_int_parse_error_message_counterexample :
    (loadFields (storeGetter [("/field2", "NaN")])
        [GoField.mk "/field2" (Value.vInt 0)] "").2 =
      some (GoError.numError "ParseInt" "NaN" ParseErrKind.syntaxErr) ∧
    goErrorMessage (GoError.numError "ParseInt" "NaN" ParseErrKind.syntaxErr) =
      "strconv.ParseInt: parsing \"NaN\": invalid syntax" ∧
    strContains "strconv.ParseInt: parsing \"NaN\": invalid syntax" "/field2" = false := by
  refine ⟨?_, rfl, by decide⟩
  have hp : goParseInt ("NaN".data) = Except.error ParseErrKind.syntaxErr := by decide
  simp [loadFields, loadField1, string_nil_append, storeGetter, storeGet, fillValue,
    NodeT.value, hp]

/-- Witness for C5 (amended): with `"NaN"` under `/field2`, loading an
integer field followed by a string field fails with the parse error and the
later field stays at its initial value. -/
theorem load_int_parse_failfast_witness :
    loadFields (storeGetter [("/field2", "NaN")])
      [GoField.mk "/field2" (Value.vInt 0), GoField.mk "/z" (Value.vStr "")] "" =
      ([GoField.mk "/field2" (Value.vInt 0), GoField.mk "/z" (Value.vStr "")],
        some (GoError.numError "ParseInt" "NaN" ParseErrKind.syntaxErr)) := by
  have h := load_int_parse_failfast (storeGetter [("/field2", "NaN")]) []
    [GoField.mk "/z" (Value.vStr "")] "/field2" 0 (NodeT.mk "/field2" "NaN" 1 [])
    ParseErrKind.syntaxErr (by simp [loadFields]) (by decide) rfl (by decide)
  simpa [loadFields] using h

theorem getLast?_append_some {a : Type} {l1 l2 : List a} {x : a}
    (h : l2.getLast? = some x) : (l1 ++ l2).getLast? = some x := by
  have hne : l2 ≠ [] := by
    intro hnil
    subst hnil
    simp at h
  rw [List.getLast?_append_of_ne_nil l1 hne, h]

theorem saveGood_nil (oracle : ErrOracle) : SaveGood oracle ([], none) := by
  constructor
  · intro e he
    simp at he
  · intro _ op hop
    simp at hop

theorem saveGood_doOp (oracle : ErrOracle) (op : WriteOp) (tol : Bool)
    (htol : tol = true ↔ ∃ p, op = WriteOp.createDir p) :
    SaveGood oracle (doOp oracle op tol) := by
  cases ho : oracle op with
  | none =>
    have hval : doOp oracle op tol = ([op], none) := by simp [doOp, ho]
    rw [hval]
    constructor
    · intro e he
      simp at he
    · intro _ op2 hop2
      rw [List.mem_singleton] at hop2
      subst hop2
      exact Or.inl ho
  | some e0 =>
    cases htl : tol && alreadyExistsError e0 with
    | true =>
      have hval : doOp oracle op tol = ([op], none) := by simp [doOp, ho, htl]
      rw [Bool.and_eq_true] at htl
      rw [hval]
      constructor
      · intro e he
        simp at he
      · intro _ op2 hop2
        rw [List.mem_singleton] at hop2
        subst hop2
        exact Or.inr ⟨htol.mp htl.1, e0, ho, htl.2⟩
    | false =>
      have hval : doOp oracle op tol = ([op], some e0) := by simp [doOp, ho, htl]
      rw [hval]
      constructor
      · intro e he
        simp only [Option.some.injEq] at he
        subst he
        refine ⟨op, by simp, ho, ?_⟩
        rintro ⟨hdir, ha⟩
        rw [htol.mpr hdir, ha] at htl
        simp at htl
      · intro hnone
        simp at hnone

theorem saveGood_seq {oracle : ErrOracle} {r s : List WriteOp × Option GoError}
    (hr : SaveGood oracle r) (hs : SaveGood oracle s) :
    SaveGood oracle (seqRes r s) := by
  unfold seqRes
  cases h2 : r.2 with
  | some e0 => exact hr
  | none =>
    constructor
    · intro e he
      simp only at he
      obtain ⟨op, hlast, horacle, hnotol⟩ := hs.1 e he
      exact ⟨op, getLast?_append_some hlast, horacle, hnotol⟩
    · intro hnone op hop
      simp only at hnone
      rw [List.mem_append] at hop
      rcases hop with hop | hop
      · exact hr.2 h2 op hop
      · exact hs.2 hnone op hop

theorem htol_set (path s : String) :
    false = true ↔ ∃ p, WriteOp.set path s = WriteOp.createDir p :=
  iff_of_false (by simp) (by rintro ⟨p, h⟩; cases h)

theorem htol_inOrder (path s : String) :
    false = true ↔ ∃ p, WriteOp.createInOrder path s = WriteOp.createDir p :=
  iff_of_false (by simp) (by rintro ⟨p, h⟩; cases h)

theorem htol_dir (path : String) :
    true = true ↔ ∃ p, WriteOp.createDir path = WriteOp.createDir p :=
  iff_of_true rfl ⟨path, rfl⟩

theorem saveGood_saveMapEntries (oracle : ErrOracle) (path : String) :
    ∀ entries, SaveGood oracle (saveMapEntries oracle path entries) := by
  intro entries
  induction entries with
  | nil => exact saveGood_nil oracle
  | cons kv rest ih =>
    obtain ⟨k, v⟩ := kv
    rw [saveMapEntries]
    exact saveGood_seq (saveGood_doOp oracle _ false (htol_set _ _)) ih

theorem saveGood_saveInOrder (oracle : ErrOracle) (path : String) :
    ∀ vals, SaveGood oracle (saveInOrder oracle path vals) := by
  intro vals
  induction vals with
  | nil => exact saveGood_nil oracle
  | cons v rest ih =>
    rw [saveInOrder]
    exact saveGood_seq (saveGood_doOp oracle _ false (htol_inOrder _ _)) ih

theorem valueSize_pos (v : Value) : 1 ≤ valueSize v := by
  cases v <;> simp [valueSize] <;> omega

theorem elemsListSize_pos (es : List (List GoField)) : 1 ≤ elemsListSize es := by
  cases es with
  | nil => simp [elemsListSize]
  | cons e rest =>
    have := fieldsSize_pos e
    simp [elemsListSize]
    omega

theorem saveGood_mutual (oracle : ErrOracle) :
    ∀ N : Nat,
      (∀ fs suffix, fieldsSize fs ≤ N → SaveGood oracle (saveFields oracle fs suffix)) ∧
      (∀ v path, valueSize v ≤ N → SaveGood oracle (saveValue oracle v path)) ∧
      (∀ path elems i, elemsListSize elems ≤ N →
        SaveGood oracle (saveStructElems oracle path elems i)) := by
  intro N
  induction N using Nat.strong_induction_on with
  | _ N ih =>
    refine ⟨?_, ?_, ?_⟩
    · intro fs suffix hsz
      match fs with
      | [] =>
        have hval : saveFields oracle [] suffix = ([], none) := by rw [saveFields]
        rw [hval]
        exact saveGood_nil oracle
      | GoField.mk t v :: rest =>
        have hvp := valueSize_pos v
        have hrp := fieldsSize_pos rest
        have hcons : fieldsSize (GoField.mk t v :: rest) = 1 + valueSize v + fieldsSize rest := by
          simp [fieldsSize]
        have hN1 : N - 1 < N := by omega
        by_cases hp : suffix ++ t = ""
        · have hval : saveFields oracle (GoField.mk t v :: rest) suffix =
              saveFields oracle rest suffix := by
            rw [saveFields]
            simp [hp]
          rw [hval]
          exact (ih (N - 1) hN1).1 rest suffix (by omega)
        · have hval : saveFields oracle (GoField.mk t v :: rest) suffix =
              seqRes (saveValue oracle v (suffix ++ t)) (saveFields oracle rest suffix) := by
            rw [saveFields]
            simp [hp]
          rw [hval]
          exact saveGood_seq ((ih (N - 1) hN1).2.1 v (suffix ++ t) (by omega))
            ((ih (N - 1) hN1).1 rest suffix (by omega))
    · intro v path hsz
      cases v with
      | vStruct fs =>
        have hf := fieldsSize_pos fs
        have hv : valueSize (Value.vStruct fs) = 1 + fieldsSize fs := by simp [valueSize]
        have hN1 : N - 1 < N := by omega
        have hval : saveValue oracle (Value.vStruct fs) path = saveFields oracle fs path := by
          rw [saveValue]
        rw [hval]
        exact (ih (N - 1) hN1).1 fs path (by omega)
      | vMap m =>
        have hval : saveValue oracle (Value.vMap m) path =
            seqRes (doOp oracle (WriteOp.createDir path) true)
              (saveMapEntries oracle path (m.getD [])) := by
          rw [saveValue]
        rw [hval]
        exact saveGood_seq (saveGood_doOp oracle _ true (htol_dir path))
          (saveGood_saveMapEntries oracle path _)
      | vSliceStr xs =>
        have hval : saveValue oracle (Value.vSliceStr xs) path =
            seqRes (doOp oracle (WriteOp.createDir path) true)
              (saveInOrder oracle path xs) := by
          rw [saveValue]
        rw [hval]
        exact saveGood_seq (saveGood_doOp oracle _ true (htol_dir path))
          (saveGood_saveInOrder oracle path _)
      | vSliceInt xs =>
        have hval : saveValue oracle (Value.vSliceInt xs) path =
            seqRes (doOp oracle (WriteOp.createDir path) true)
              (saveInOrder oracle path (xs.map fun _ => "<int Value>")) := by
          rw [saveValue]
        rw [hval]
        exact saveGood_seq (saveGood_doOp oracle _ true (htol_dir path))
          (saveGood_saveInOrder oracle path _)
      | vSliceInt64 xs =>
        have hval : saveValue oracle (Value.vSliceInt64 xs) path =
            seqRes (doOp oracle (WriteOp.createDir path) true)
              (saveInOrder oracle path (xs.map fun _ => "<int64 Value>")) := by
          rw [saveValue]
        rw [hval]
        exact saveGood_seq (saveGood_doOp oracle _ true (htol_dir path))
          (saveGood_saveInOrder oracle path _)
      | vSliceBool xs =>
        have hval : saveValue oracle (Value.vSliceBool xs) path =
            seqRes (doOp oracle (WriteOp.createDir path) true)
              (saveInOrder oracle path (xs.map fun _ => "<bool Value>")) := by
          rw [saveValue]
        rw [hval]
        exact saveGood_seq (saveGood_doOp oracle _ true (htol_dir path))
          (saveGood_saveInOrder oracle path _)
      | vSliceStruct tpl elems =>
        have htp := fieldsSize_pos tpl
        have hep := elemsListSize_pos elems
        have hv : valueSize (Value.vSliceStruct tpl elems) =
            1 + fieldsSize tpl + elemsListSize elems := by
          simp [valueSize]
        have hN1 : N - 1 < N := by omega
        have hval : saveValue oracle (Value.vSliceStruct tpl elems) path =
            seqRes (doOp oracle (WriteOp.createDir path) true)
              (saveStructElems oracle path elems 0) := by
          rw [saveValue]
        rw [hval]
        exact saveGood_seq (saveGood_doOp oracle _ true (htol_dir path))
          ((ih (N - 1) hN1).2.2 path elems 0 (by omega))
      | vStr s =>
        have hval : saveValue oracle (Value.vStr s) path =
            doOp oracle (WriteOp.set path s) false := by
          rw [saveValue]
        rw [hval]
        exact saveGood_doOp oracle _ false (htol_set _ _)
      | vInt n =>
        have hval : saveValue oracle (Value.vInt n) path =
            doOp oracle (WriteOp.set path (formatInt n)) false := by
          rw [saveValue]
        rw [hval]
        exact saveGood_doOp oracle _ false (htol_set _ _)
      | vInt64 n =>
        have hval : saveValue oracle (Value.vInt64 n) path =
            doOp oracle (WriteOp.set path (formatInt n)) false := by
          rw [saveValue]
        rw [hval]
        exact saveGood_doOp oracle _ false (htol_set _ _)
      | vBool b =>
        have hval : saveValue oracle (Value.vBool b) path =
            doOp oracle (WriteOp.set path (goBoolStr b)) false := by
          rw [saveValue]
        rw [hval]
        exact saveGood_doOp oracle _ false (htol_set _ _)
    · intro path elems i hsz
      match elems with
      | [] =>
        have hval : saveStructElems oracle path [] i = ([], none) := by rw [saveStructElems]
        rw [hval]
        exact saveGood_nil oracle
      | e :: rest =>
        have hfp := fieldsSize_pos e
        have hrp := elemsListSize_pos rest
        have hcons : elemsListSize (e :: rest) = 1 + fieldsSize e + elemsListSize rest := by
          simp [elemsListSize]
        have hN1 : N - 1 < N := by omega
        have hval : saveStructElems oracle path (e :: rest) i =
            seqRes
              (seqRes (doOp oracle (WriteOp.createDir (path ++ "/" ++ formatNat i)) true)
                (saveFields oracle e (path ++ "/" ++ formatNat i)))
              (saveStructElems oracle path rest (i + 1)) := by
          rw [saveStructElems]
        rw [hval]
        exact saveGood_seq
          (saveGood_seq (saveGood_doOp oracle _ true (htol_dir _))
            ((ih (N - 1) hN1).1 e _ (by omega)))
          ((ih (N - 1) hN1).2.2 path rest (i + 1) (by omega))

/-- C4: during Save, any remote write failure aborts the walk immediately —
the error returned is the store's answer to the last attempted write, no
write is attempted after it, and the surfaced error is never a tolerated
"directory exists" — while on a Save that returns no error every attempted
write either succeeded or was a directory creation answered with "node
exists", which `Client.save` treats as success and walks on
(src/etcetera.go lines 96-180). -/
theorem save_aborts_on_first_error (oracle : ErrOracle) (fs : List GoField) (suffix : String) :
    (∀ e, (saveFields oracle fs suffix).2 = some e →
      ∃ op, (saveFields oracle fs suffix).1.getLast? = some op ∧ oracle op = some e ∧
        ¬((∃ p, op = WriteOp.createDir p) ∧ alreadyExistsError e = true)) ∧
    ((saveFields oracle fs suffix).2 = none →
      ∀ op ∈ (saveFields oracle fs suffix).1, tolerableOp oracle op) :=
  (saveGood_mutual oracle (fieldsSize fs)).1 fs suffix (le_refl _)

/-- Witness for C4: a store rejecting `Set /field2` stops the walk at that
write (the trace ends there and `/field3` is never written), while a store
answering "node exists" to the slice directory creation lets the save of
the slice complete without error. -/
theorem save_aborts_on_first_error_witness :
    (∃ op,
      (saveFields failSetOracle
          [GoField.mk "/field1" (Value.vStr "value1"), GoField.mk "/field2" (Value.vInt 10),
            GoField.mk "/field3" (Value.vBool true)] "").1.getLast? = some op ∧
      failSetOracle op = some raftErr ∧
      ¬((∃ p, op = WriteOp.createDir p) ∧ alreadyExistsError raftErr = true)) ∧
    (saveFields nodeExistOracle [GoField.mk "/field" (Value.vSliceStr ["value"])] "").2 = none ∧
    tolerableOp nodeExistOracle (WriteOp.createDir "/field") := by
  have hfmt : formatInt 10 = "10" := by decide
  have heval1 : saveFields failSetOracle
      [GoField.mk "/field1" (Value.vStr "value1"), GoField.mk "/field2" (Value.vInt 10),
        GoField.mk "/field3" (Value.vBool true)] "" =
      ([WriteOp.set "/field1" "value1", WriteOp.set "/field2" "10"], some raftErr) := by
    simp [saveFields, saveValue, doOp, seqRes, failSetOracle, string_nil_append, hfmt,
      alreadyExistsError, raftErr]
  have heval2 : saveFields nodeExistOracle [GoField.mk "/field" (Value.vSliceStr ["value"])] "" =
      ([WriteOp.createDir "/field", WriteOp.createInOrder "/field" "value"], none) := by
    simp [saveFields, saveValue, saveInOrder, doOp, seqRes, nodeExistOracle, string_nil_append,
      alreadyExistsError, etcdErrorCodeNodeExist]
  refine ⟨?_, ?_, ?_⟩
  · exact (save_aborts_on_first_error failSetOracle
      [GoField.mk "/field1" (Value.vStr "value1"), GoField.mk "/field2" (Value.vInt 10),
        GoField.mk "/field3" (Value.vBool true)] "").1 raftErr (by rw [heval1])
  · rw [heval2]
  · exact (save_aborts_on_first_error nodeExistOracle
      [GoField.mk "/field" (Value.vSliceStr ["value"])] "").2 (by rw [heval2])
      (WriteOp.createDir "/field") (by rw [heval2]; exact List.mem_cons_self _ _)

theorem loadField1_skip (g : Getter) (t : String) (v : Value) (suffix : String)
    (hp : suffix ++ t = "") : loadField1 g (GoField.mk t v) suffix = (GoField.mk t v, none) := by
  cases v <;> simp [loadField1, hp]

theorem saveFields_root_filter (oracle : ErrOracle) :
    ∀ fs : List GoField,
      saveFields oracle fs "" = saveFields oracle (fs.filter (fun f => f.tag != "")) "" := by
  intro fs
  induction fs with
  | nil => rfl
  | cons f rest ih =>
    obtain ⟨t, v⟩ := f
    by_cases ht : t = ""
    · subst ht
      have hskip : saveFields oracle (GoField.mk "" v :: rest) "" = saveFields oracle rest "" := by
        rw [saveFields]
        simp [string_nil_append]
      rw [hskip, ih]
      rw [List.filter_cons_of_neg]
      simp [GoField.tag]
    · have hproc : saveFields oracle (GoField.mk t v :: rest) "" =
          seqRes (saveValue oracle v ("" ++ t)) (saveFields oracle rest "") := by
        rw [saveFields]
        simp [string_nil_append, ht]
      have hfil : (GoField.mk t v :: rest).filter (fun f => f.tag != "") =
          GoField.mk t v :: rest.filter (fun f => f.tag != "") := by
        rw [List.filter_cons_of_pos]
        simp [GoField.tag, ht]
      rw [hproc, hfil]
      have hproc2 : saveFields oracle (GoField.mk t v :: rest.filter (fun f => f.tag != "")) "" =
          seqRes (saveValue oracle v ("" ++ t))
            (saveFields oracle (rest.filter (fun f => f.tag != "")) "") := by
        rw [saveFields]
        simp [string_nil_append, ht]
      rw [hproc2, ih]

theorem loadFields_keeps_untagged_root (g : Getter) :
    ∀ (fs : List GoField) (i : Nat) (t : String) (v : Value),
      fs.get? i = some (GoField.mk t v) → t = "" →
      (loadFields g fs "").1.get? i = some (GoField.mk t v) := by
  intro fs
  induction fs with
  | nil =>
    intro i t v h _
    simp at h
  | cons f rest ih =>
    intro i t v hi ht
    cases i with
    | zero =>
      rw [List.get?_cons_zero] at hi
      obtain rfl : f = GoField.mk t v := by injection hi
      subst ht
      have hskip := loadField1_skip g "" v "" (by rfl)
      rw [loadFields_cons_ok g _ rest "" (by rw [hskip])]
      simp [hskip]
    | succ i =>
      rw [List.get?_cons_succ] at hi
      cases h1 : (loadField1 g f "").2 with
      | some e =>
        rw [loadFields_cons_err g f rest "" e h1]
        simpa using hi
      | none =>
        rw [loadFields_cons_ok g f rest "" h1]
        simpa using ih i t v hi ht

/-- C7 (amended): a field is skipped exactly when its concatenated path
(`pathSuffix + tag`) is empty — which at the walk's root means exactly the
untagged fields. At the root, Save produces the same writes as if the
untagged fields were absent, and Load returns every untagged field exactly
as it was (so a zero-valued field stays zero). An untagged field nested
below a tagged structure, however, inherits the enclosing non-empty prefix
as its path and IS written and read at the parent's own path (see the
counterexample). -/
theorem untagged_root_fields_untouched (oracle : ErrOracle) (g : Getter) (fs : List GoField) :
    saveFields oracle fs "" = saveFields oracle (fs.filter (fun f => f.tag != "")) "" ∧
    (∀ i t v, fs.get? i = some (GoField.mk t v) → t = "" →
      (loadFields g fs "").1.get? i = some (GoField.mk t v)) :=
  ⟨saveFields_root_filter oracle fs, fun i t v h ht => loadFields_keeps_untagged_root g fs i t v h ht⟩

/-- Witness for C7 (amended): saving a structure with an untagged second
field writes only the tagged field, and loading leaves the untagged field
at its initial value. -/
theorem untagged_root_fields_untouched_witness :
    saveFields okOracle [GoField.mk "/a" (Value.vStr "x"), GoField.mk "" (Value.vInt 9)] "" =
      saveFields okOracle
        ([GoField.mk "/a" (Value.vStr "x"), GoField.mk "" (Value.vInt 9)].filter
          (fun f => f.tag != "")) "" ∧
    (loadFields (storeGetter [("/a", "x")])
        [GoField.mk "/a" (Value.vStr "x"), GoField.mk "" (Value.vInt 9)] "").1.get? 1 =
      some (GoField.mk "" (Value.vInt 9)) :=
  ⟨(untagged_root_fields_untouched okOracle (storeGetter [("/a", "x")])
      [GoField.mk "/a" (Value.vStr "x"), GoField.mk "" (Value.vInt 9)]).1,
   (untagged_root_fields_untouched okOracle (storeGetter [("/a", "x")])
      [GoField.mk "/a" (Value.vStr "x"), GoField.mk "" (Value.vInt 9)]).2 1 "" (Value.vInt 9)
      rfl rfl⟩

/-- Counterexample to C7 as stated: in `struct { Inner struct { X int } }`
with the inner structure tagged `/b` and `X` untagged (value 7), the
untagged field is NOT ignored: `path := pathSuffix + tag` is `/b + "" = /b`,
which is non-empty, so Save writes the untagged field's value to `/b`
(`Set /b "7"` appears in the trace) and Load fills the untagged field from
`/b` — loading the zero instance over that store yields 7, not the zero
value the claim promises. -/
theorem untagged_nested_field_written_counterexample :
    (saveFields okOracle [GoField.mk "/b" (Value.vStruct [GoField.mk "" (Value.vInt 7)])] "").1 =
      [WriteOp.set "/b" "7"] ∧
    Value.intVal (GoField.val (List.getD (Value.structFields (GoField.val (List.getD
      (loadFields (storeGetter [("/b", "7")])
        (zeroFields [GoField.mk "/b" (Value.vStruct [GoField.mk "" (Value.vInt 7)])]) "").1
      0 default))) 0 default)) = 7 := by
  have hfmt : formatInt 7 = "7" := by decide
  have hparse : goParseInt ("7".data) = Except.ok 7 := by decide
  constructor
  · simp [saveFields, saveValue, doOp, seqRes, okOracle, string_nil_append, hfmt]
  · simp [zeroFields, zeroValue, loadFields, loadField1, fillValue, storeGetter, storeGet,
      string_nil_append, NodeT.value, hparse, GoField.val, Value.structFields, Value.intVal]

theorem saveFields_scalars (fs : List GoField)
    (hscalar : ∀ f ∈ fs, f.tag ≠ "" → isScalar f.val = true) :
    saveFields okOracle fs "" =
      (fs.filterMap
        (fun f => if f.tag = "" then none else some (WriteOp.set f.tag (encodeScalar f.val))),
       none) := by
  induction fs with
  | nil => simp [saveFields]
  | cons f rest ih =>
    obtain ⟨t, v⟩ := f
    have ihr := ih (fun x hx hxt => hscalar x (List.mem_cons_of_mem _ hx) hxt)
    by_cases ht : t = ""
    · have hskip : saveFields okOracle (GoField.mk t v :: rest) "" =
          saveFields okOracle rest "" := by
        rw [saveFields]
        simp [string_nil_append, ht]
      rw [hskip, ihr]
      simp [List.filterMap_cons, GoField.tag, ht]
    · have hsc : isScalar v = true :=
        hscalar (GoField.mk t v) (List.mem_cons_self _ _) (by simpa [GoField.tag] using ht)
      have hproc : saveFields okOracle (GoField.mk t v :: rest) "" =
          seqRes (saveValue okOracle v ("" ++ t)) (saveFields okOracle rest "") := by
        rw [saveFields]
        simp [string_nil_append, ht]
      have hval : saveValue okOracle v ("" ++ t) =
          ([WriteOp.set t (encodeScalar v)], none) := by
        cases v with
        | vStr s => simp [saveValue, doOp, okOracle, encodeScalar, string_nil_append]
        | vInt n => simp [saveValue, doOp, okOracle, encodeScalar, string_nil_append]
        | vInt64 n => simp [saveValue, doOp, okOracle, encodeScalar, string_nil_append]
        | vBool b => simp [saveValue, doOp, okOracle, encodeScalar, string_nil_append]
        | vMap m => simp [isScalar] at hsc
        | vSliceStr xs => simp [isScalar] at hsc
        | vSliceInt xs => simp [isScalar] at hsc
        | vSliceInt64 xs => simp [isScalar] at hsc
        | vSliceBool xs => simp [isScalar] at hsc
        | vSliceStruct tpl elems => simp [isScalar] at hsc
        | vStruct gs => simp [isScalar] at hsc
      rw [hproc, hval, ihr]
      simp [seqRes, List.filterMap_cons, GoField.tag, GoField.val, ht]

theorem storeGet_storeSet_self (st : Store) (k v : String) :
    storeGet (storeSet st k v) k = some v := by
  induction st with
  | nil => simp [storeSet, storeGet]
  | cons kv rest ih =>
    obtain ⟨k0, v0⟩ := kv
    by_cases h : k0 = k
    · simp [storeSet, storeGet, h]
    · simp [storeSet, storeGet, h, ih]

theorem storeGet_storeSet_other (st : Store) (k v k2 : String) (h : k ≠ k2) :
    storeGet (storeSet st k v) k2 = storeGet st k2 := by
  induction st with
  | nil => simp [storeSet, storeGet, h]
  | cons kv rest ih =>
    obtain ⟨k0, v0⟩ := kv
    by_cases h0 : k0 = k
    · subst h0
      simp [storeSet, storeGet, h]
    · simp [storeSet, storeGet, h0, ih]

theorem storeGet_applyOps_no_set (ops : List WriteOp) :
    ∀ (st : Store) (k : String),
      (∀ p v, WriteOp.set p v ∈ ops → p ≠ k) →
      storeGet (applyOps ops st) k = storeGet st k := by
  induction ops with
  | nil =>
    intro st k _
    simp [applyOps]
  | cons op rest ih =>
    intro st k hno
    cases op with
    | createDir p => simpa [applyOps] using ih st k (fun p v hv => hno p v (List.mem_cons_of_mem _ hv))
    | createInOrder p v =>
      simpa [applyOps] using ih st k (fun p v hv => hno p v (List.mem_cons_of_mem _ hv))
    | set p v =>
      rw [show applyOps (WriteOp.set p v :: rest) st = applyOps rest (storeSet st p v) from rfl]
      rw [ih (storeSet st p v) k (fun p2 v2 hv => hno p2 v2 (List.mem_cons_of_mem _ hv))]
      exact storeGet_storeSet_other st p v k (hno p v (List.mem_cons_self _ _))

theorem set_mem_scalar_ops {fs : List GoField} {p w : String}
    (h : WriteOp.set p w ∈ fs.filterMap
      (fun f => if f.tag = "" then none else some (WriteOp.set f.tag (encodeScalar f.val)))) :
    p ∈ taggedPaths fs := by
  rw [List.mem_filterMap] at h
  obtain ⟨f, hf, hop⟩ := h
  by_cases ht : f.tag = ""
  · simp [ht] at hop
  · simp only [ht, if_false, Option.some.injEq] at hop
    rw [WriteOp.set.injEq] at hop
    obtain ⟨hp, hw⟩ := hop
    rw [taggedPaths, List.mem_filterMap]
    exact ⟨f, hf, by rw [if_neg ht, hp]⟩

theorem storeGet_scalar_save (fs : List GoField)
    (hdup : (taggedPaths fs).Nodup) :
    ∀ (st : Store) (f : GoField), f ∈ fs → f.tag ≠ "" →
      storeGet
        (applyOps
          (fs.filterMap
            (fun f => if f.tag = "" then none else some (WriteOp.set f.tag (encodeScalar f.val))))
          st) f.tag = some (encodeScalar f.val) := by
  induction fs with
  | nil =>
    intro st f hf _
    simp at hf
  | cons g rest ih =>
    intro st f hf hft
    obtain ⟨tg, vg⟩ := g
    by_cases htg : tg = ""
    · have hops : (GoField.mk tg vg :: rest).filterMap
          (fun f => if f.tag = "" then none else some (WriteOp.set f.tag (encodeScalar f.val))) =
          rest.filterMap
            (fun f => if f.tag = "" then none else some (WriteOp.set f.tag (encodeScalar f.val))) := by
        simp [List.filterMap_cons, GoField.tag, htg]
      have hdup2 : (taggedPaths rest).Nodup := by
        rw [taggedPaths] at hdup ⊢
        simpa [List.filterMap_cons, GoField.tag, htg] using hdup
      rcases List.mem_cons.mp hf with rfl | hf2
      · exact absurd (by simpa [GoField.tag] using htg) hft
      · rw [hops]
        exact ih hdup2 st f hf2 hft
    · have hops : (GoField.mk tg vg :: rest).filterMap
          (fun f => if f.tag = "" then none else some (WriteOp.set f.tag (encodeScalar f.val))) =
          WriteOp.set tg (encodeScalar vg) :: rest.filterMap
            (fun f => if f.tag = "" then none else some (WriteOp.set f.tag (encodeScalar f.val))) := by
        simp [List.filterMap_cons, GoField.tag, GoField.val, htg]
      have htags : taggedPaths (GoField.mk tg vg :: rest) = tg :: taggedPaths rest := by
        simp [taggedPaths, List.filterMap_cons, GoField.tag, htg]
      rw [htags] at hdup
      have hdup2 : (taggedPaths rest).Nodup := hdup.of_cons
      have hnotin : tg ∉ taggedPaths rest := by
        have := List.nodup_cons.mp hdup
        exact this.1
      rcases List.mem_cons.mp hf with rfl | hf2
      · rw [hops]
        rw [show applyOps (WriteOp.set tg (encodeScalar vg) :: _) st =
            applyOps _ (storeSet st tg (encodeScalar vg)) from rfl]
        rw [storeGet_applyOps_no_set _ _ _
          (fun p w hw => fun hpk => hnotin (by
            have hpk2 : p = tg := hpk
            rw [← hpk2]
            exact set_mem_scalar_ops hw))]
        simpa [GoField.tag, GoField.val] using
          storeGet_storeSet_self st tg (encodeScalar vg)
      · rw [hops]
        rw [show applyOps (WriteOp.set tg (encodeScalar vg) :: _) st =
            applyOps _ (storeSet st tg (encodeScalar vg)) from rfl]
        exact ih hdup2 (storeSet st tg (encodeScalar vg)) f hf2 hft

theorem loadField1_scalar_restore (st : Store) (t : String) (v : Value)
    (ht : t ≠ "") (hsc : isScalar v = true) (hr : scalarInRange v = true)
    (hl : storeGet st t = some (encodeScalar v)) :
    loadField1 (storeGetter st) (GoField.mk t (zeroValue v)) "" = (GoField.mk t v, none) := by
  have hget : storeGetter st t = Except.ok (NodeT.mk t (encodeScalar v) 1 []) := by
    simp [storeGetter, hl]
  cases v with
  | vStr s =>
    simp [zeroValue, loadField1, string_nil_append, ht, hget, fillValue, NodeT.value, encodeScalar]
  | vInt n =>
    have hb : int64Lo ≤ n ∧ n ≤ int64Hi := by
      simpa [scalarInRange] using hr
    have hp : goParseInt (formatInt n).data = Except.ok n := goParseInt_formatInt hb.1 hb.2
    simp [zeroValue, loadField1, string_nil_append, ht, hget, fillValue, NodeT.value,
      encodeScalar, hp]
  | vInt64 n =>
    have hb : int64Lo ≤ n ∧ n ≤ int64Hi := by
      simpa [scalarInRange] using hr
    have hp : goParseInt (formatInt n).data = Except.ok n := goParseInt_formatInt hb.1 hb.2
    simp [zeroValue, loadField1, string_nil_append, ht, hget, fillValue, NodeT.value,
      encodeScalar, hp]
  | vBool b =>
    cases b with
    | true =>
      simp [zeroValue, loadField1, string_nil_append, ht, hget, fillValue, NodeT.value,
        encodeScalar, goBoolStr]
    | false =>
      simp [zeroValue, loadField1, string_nil_append, ht, hget, fillValue, NodeT.value,
        encodeScalar, goBoolStr]
  | vMap m => simp [isScalar] at hsc
  | vSliceStr xs => simp [isScalar] at hsc
  | vSliceInt xs => simp [isScalar] at hsc
  | vSliceInt64 xs => simp [isScalar] at hsc
  | vSliceBool xs => simp [isScalar] at hsc
  | vSliceStruct tpl elems => simp [isScalar] at hsc
  | vStruct gs => simp [isScalar] at hsc

theorem loadFields_scalars_restore (st : Store) :
    ∀ fs : List GoField,
      (∀ f ∈ fs, f.tag ≠ "" → isScalar f.val = true) →
      (∀ f ∈ fs, f.tag ≠ "" → scalarInRange f.val = true) →
      (∀ f ∈ fs, f.tag ≠ "" → storeGet st f.tag = some (encodeScalar f.val)) →
      loadFields (storeGetter st) (zeroFields fs) "" =
        (fs.map (fun f => if f.tag = "" then GoField.mk f.tag (zeroValue f.val) else f), none) := by
  intro fs
  induction fs with
  | nil =>
    intro _ _ _
    simp [zeroFields, loadFields]
  | cons f rest ih =>
    intro hscalar hrange hlookup
    obtain ⟨t, v⟩ := f
    have ihr := ih (fun x hx => hscalar x (List.mem_cons_of_mem _ hx))
      (fun x hx => hrange x (List.mem_cons_of_mem _ hx))
      (fun x hx => hlookup x (List.mem_cons_of_mem _ hx))
    have hzf : zeroFields (GoField.mk t v :: rest) =
        GoField.mk t (zeroValue v) :: zeroFields rest := by
      rw [zeroFields]
    by_cases ht : t = ""
    · subst ht
      have hskip := loadField1_skip (storeGetter st) "" (zeroValue v) "" rfl
      rw [hzf, loadFields_cons_ok _ _ _ _ (by rw [hskip]), ihr]
      simp [hskip, GoField.tag, GoField.val]
    · have hmem := List.mem_cons_self (GoField.mk t v) rest
      have ht2 : (GoField.mk t v).tag ≠ "" := by simpa [GoField.tag] using ht
      have hres := loadField1_scalar_restore st t v ht
        (by simpa [GoField.val] using hscalar _ hmem ht2)
        (by simpa [GoField.val] using hrange _ hmem ht2)
        (by simpa [GoField.tag, GoField.val] using hlookup _ hmem ht2)
      rw [hzf, loadFields_cons_ok _ _ _ _ (by rw [hres]), ihr]
      simp [hres, GoField.tag, ht]

/-- C1 (amended): for a structure whose tagged fields are all scalars, whose
tagged paths are pairwise distinct, and whose integer values lie in the
`int64` range (as every actual Go value does), Save into an empty store
followed by Load into the zero-valued instance of the same type over that
store succeeds and reproduces every tagged field's value exactly. -/
theorem scalar_round_trip (fs : List GoField)
    (hscalar : ∀ f ∈ fs, f.tag ≠ "" → isScalar f.val = true)
    (hrange : ∀ f ∈ fs, f.tag ≠ "" → scalarInRange f.val = true)
    (hdup : (taggedPaths fs).Nodup) :
    (saveFields okOracle fs "").2 = none ∧
    (roundTrip fs).2 = none ∧
    (∀ i f, fs.get? i = some f → f.tag ≠ "" → (roundTrip fs).1.get? i = some f) := by
  have hsave := saveFields_scalars fs hscalar
  have hstore : saveToEmptyStore fs =
      applyOps
        (fs.filterMap
          (fun f => if f.tag = "" then none else some (WriteOp.set f.tag (encodeScalar f.val))))
        [] := by
    rw [saveToEmptyStore, hsave]
  have hlookup : ∀ f ∈ fs, f.tag ≠ "" →
      storeGet (saveToEmptyStore fs) f.tag = some (encodeScalar f.val) := by
    intro f hf hft
    rw [hstore]
    exact storeGet_scalar_save fs hdup [] f hf hft
  have hload := loadFields_scalars_restore (saveToEmptyStore fs) fs hscalar hrange hlookup
  refine ⟨by rw [hsave], ?_, ?_⟩
  · rw [roundTrip, hload]
  · intro i f hi hft
    rw [roundTrip, hload]
    simp only [List.get?_map, hi, Option.map_some']
    rw [if_neg hft]

/-- Witness for C1 (amended): the spec's example structure
`{Name string tag /name = "alpha", Count int tag /count = 7}` (plus an
untagged flag) round-trips exactly. -/
theorem scalar_round_trip_witness :
    (saveFields okOracle
      [GoField.mk "/name" (Value.vStr "alpha"), GoField.mk "/count" (Value.vInt 7),
        GoField.mk "" (Value.vBool true)] "").2 = none ∧
    (roundTrip
      [GoField.mk "/name" (Value.vStr "alpha"), GoField.mk "/count" (Value.vInt 7),
        GoField.mk "" (Value.vBool true)]).2 = none ∧
    (∀ i f,
      [GoField.mk "/name" (Value.vStr "alpha"), GoField.mk "/count" (Value.vInt 7),
        GoField.mk "" (Value.vBool true)].get? i = some f → f.tag ≠ "" →
      (roundTrip
        [GoField.mk "/name" (Value.vStr "alpha"), GoField.mk "/count" (Value.vInt 7),
          GoField.mk "" (Value.vBool true)]).1.get? i = some f) :=
  scalar_round_trip
    [GoField.mk "/name" (Value.vStr "alpha"), GoField.mk "/count" (Value.vInt 7),
      GoField.mk "" (Value.vBool true)]
    (by decide) (by decide) (by decide)

/-- Counterexample to C1 as stated: the all-scalar structure with two int
fields both tagged `/x` (values 1 and 2) does not round-trip — the second
Save overwrites the first leaf, and Load fills both fields with 2, so the
first field comes back as 2, not its original 1. -/
theorem scalar_round_trip_counterexample :
    (roundTrip [GoField.mk "/x" (Value.vInt 1), GoField.mk "/x" (Value.vInt 2)]).2 = none ∧
    Value.intVal (GoField.val (List.getD
      (roundTrip [GoField.mk "/x" (Value.vInt 1), GoField.mk "/x" (Value.vInt 2)]).1 0 default))
      = 2 ∧
    Value.intVal (GoField.val (List.getD
      [GoField.mk "/x" (Value.vInt 1), GoField.mk "/x" (Value.vInt 2)] 0 default)) = 1 ∧
    (2 : Int) ≠ 1 := by
  have h1 : formatInt 1 = "1" := by decide
  have h2 : formatInt 2 = "2" := by decide
  have hp : goParseInt ("2".data) = Except.ok 2 := by decide
  have heval : roundTrip [GoField.mk "/x" (Value.vInt 1), GoField.mk "/x" (Value.vInt 2)] =
      ([GoField.mk "/x" (Value.vInt 2), GoField.mk "/x" (Value.vInt 2)], none) := by
    have hsave : saveFields okOracle
        [GoField.mk "/x" (Value.vInt 1), GoField.mk "/x" (Value.vInt 2)] "" =
        ([WriteOp.set "/x" "1", WriteOp.set "/x" "2"], none) := by
      simp [saveFields, saveValue, doOp, seqRes, okOracle, string_nil_append, h1, h2]
    have hst : saveToEmptyStore [GoField.mk "/x" (Value.vInt 1), GoField.mk "/x" (Value.vInt 2)] =
        [("/x", "2")] := by
      rw [saveToEmptyStore, hsave]
      simp [applyOps, storeSet]
    rw [roundTrip, hst]
    simp [zeroFields, zeroValue, loadFields, loadField1, fillValue, storeGetter, storeGet,
      string_nil_append, NodeT.value, hp]
  rw [heval]
  refine ⟨rfl, rfl, rfl, by decide⟩
